import Mathlib

/-!
Verification of the ant-router request-translation pipeline against its
specification.  The Rust sources are shallowly embedded: each Lean
definition mirrors one Rust function or type (machine integers become
`Nat` with explicit wrap-around where the code can overflow, `serde_json`
values become the inductive `Json` with objects as ordered association
lists, hash maps become association lists with unique keys, and streams
become lists of `Except`-items processed by explicit state passing).
-/

set_option maxRecDepth 4000

namespace AntRouter

/-- JSON values (serde_json `Value`).  Objects are ordered association
lists; numbers are modelled as integers, the only numeric shapes the
embedded code inspects. -/
inductive Json where
  | null : Json
  | bool (b : Bool) : Json
  | num (n : Int) : Json
  | str (s : String) : Json
  | arr (xs : List Json) : Json
  | obj (fields : List (String × Json)) : Json

/-- First-binding lookup in an association list (hash-map `get` for maps
with unique keys). -/
def lookupKey {κ β : Type} [DecidableEq κ] (k : κ) : List (κ × β) → Option β
  | [] => none
  | (k0, v) :: rest => if k0 = k then some v else lookupKey k rest

/-- Replace the first binding of `k` (hash-map in-place update of an
existing entry). -/
def replaceKey {κ β : Type} [DecidableEq κ] (l : List (κ × β)) (k : κ) (v : β) :
    List (κ × β) :=
  match l with
  | [] => []
  | (k0, v0) :: rest =>
    if k0 = k then (k0, v) :: rest else (k0, v0) :: replaceKey rest k v

/-- Hash-map `insert`: overwrite the binding when the key exists, append
it otherwise. -/
def insertEntry {κ β : Type} [DecidableEq κ] (l : List (κ × β)) (k : κ) (v : β) :
    List (κ × β) :=
  if (lookupKey k l).isSome then replaceKey l k v else l ++ [(k, v)]

/-- Hash-map `extend`: insert every binding of `adds` into `m`. -/
def extendMap {κ β : Type} [DecidableEq κ] (m adds : List (κ × β)) : List (κ × β) :=
  adds.foldl (fun acc kv => insertEntry acc kv.1 kv.2) m

/-- Rust `Option::or`: keep the first operand when it is set. -/
def optOr {α : Type} (a b : Option α) : Option α :=
  match a with
  | some x => some x
  | none => b

/-- `str::strip_prefix` on character lists. -/
def dropPrefixChars : List Char → List Char → Option (List Char)
  | [], s => some s
  | _ :: _, [] => none
  | p :: ps, c :: cs => if p = c then dropPrefixChars ps cs else none

/-- `str::strip_prefix` on strings. -/
def dropPrefixStr (p s : String) : Option String :=
  (dropPrefixChars p.toList s.toList).map fun cs => String.mk cs

/-- `str::trim`: drop leading and trailing whitespace. -/
def strTrim (s : String) : String :=
  String.mk (((s.toList.dropWhile Char.isWhitespace).reverse.dropWhile
    Char.isWhitespace).reverse)

/-- `config.rs` `ReasoningConfig` (untagged union of bool, level string and
token budget). -/
inductive ReasoningConfig where
  | bool (b : Bool)
  | level (s : String)
  | budget (n : Nat)
  deriving DecidableEq

/-- `config.rs` `ContextConstraints`. -/
structure ContextConstraints where
  window : Option Nat
  max_output : Option Nat
  deriving DecidableEq

/-- `config.rs` `ReasoningCapability`. -/
inductive ReasoningCapability where
  | bool (b : Bool)
  | complex (enabled : Bool) (effort_level : Option String)
  deriving DecidableEq

/-- `config.rs` `Capabilities`.  The two token-count fields hold raw JSON
values in the source. -/
structure Capabilities where
  vision : Option Bool
  tools : Option Bool
  reasoning : Option ReasoningCapability
  max_context_tokens : Option Json
  max_output_tokens : Option Json

/-- `config.rs` `PreprocessConfig`.  `max_output_tokens` holds a raw JSON
value (the string "auto" or a number). -/
structure PreprocessConfig where
  merge_system_messages : Option Bool
  sanitize_tool_history : Option Bool
  max_output_tokens : Option Json
  max_output_cap : Option Nat
  disable_parallel_tool_calls : Option Bool
  strict_tools : Option Bool
  clean_web_search : Option Bool
  json_repair : Option Bool

/-- `config.rs` `RetryConfig`. -/
structure RetryConfig where
  max_retries : Nat
  backoff_ms : Nat
  deriving DecidableEq

/-- `config.rs` `ApiParams`.  The two hash maps become association lists
with unique keys. -/
structure ApiParams where
  timeout : Option Nat
  headers : List (String × String)
  extra_body : List (String × Json)
  retry : Option RetryConfig

/-- `config.rs` `ModelConfig`.  The `extends` field is named
`extendsKey` because `extends` is reserved in Lean. -/
structure ModelConfig where
  extendsKey : Option String
  provider : Option String
  api_model_id : Option String
  aliases : List String
  context : Option ContextConstraints
  capabilities : Option Capabilities
  min_reasoning : Option ReasoningConfig
  force_reasoning : Option ReasoningConfig
  max_tokens : Option Nat
  override_max_tokens : Option Json
  override_map : Option (List (String × Json))
  preprocess : Option PreprocessConfig
  api_params : Option ApiParams

mutual

/-- `config.rs` `deep_merge_json`: fold the override map into the base
map, recursing when both sides hold objects. -/
def deep_merge_json : List (String × Json) → List (String × Json) → List (String × Json)
  | base, [] => base
  | base, (k, v) :: rest => deep_merge_json (deepMergeEntry base k v) rest
termination_by _ o => sizeOf o

/-- One iteration of the `deep_merge_json` loop: merge the single
override binding `(k, v)` into `base`. -/
def deepMergeEntry (base : List (String × Json)) (k : String) (v : Json) :
    List (String × Json) :=
  match lookupKey k base, v with
  | some (Json.obj baseObj), Json.obj overrideObj =>
    replaceKey base k (Json.obj (deep_merge_json baseObj overrideObj))
  | some _, newVal => replaceKey base k newVal
  | none, newVal => base ++ [(k, newVal)]
termination_by sizeOf v

end

/-- `config.rs` `merge_overrides`. -/
def merge_overrides (parent child : Option (List (String × Json))) :
    Option (List (String × Json)) :=
  match parent, child with
  | none, none => none
  | some p, none => some p
  | none, some c => some c
  | some p, some c => some (deep_merge_json p c)

/-- `config.rs` `merge_preprocess` (child field wins when set). -/
def merge_preprocess (parent child : Option PreprocessConfig) : Option PreprocessConfig :=
  match parent, child with
  | none, none => none
  | some p, none => some p
  | none, some c => some c
  | some p, some c => some {
      merge_system_messages := optOr c.merge_system_messages p.merge_system_messages
      sanitize_tool_history := optOr c.sanitize_tool_history p.sanitize_tool_history
      max_output_tokens := optOr c.max_output_tokens p.max_output_tokens
      max_output_cap := optOr c.max_output_cap p.max_output_cap
      disable_parallel_tool_calls :=
        optOr c.disable_parallel_tool_calls p.disable_parallel_tool_calls
      strict_tools := optOr c.strict_tools p.strict_tools
      clean_web_search := optOr c.clean_web_search p.clean_web_search
      json_repair := optOr c.json_repair p.json_repair }

/-- `config.rs` `merge_context`. -/
def merge_context (parent child : Option ContextConstraints) : Option ContextConstraints :=
  match parent, child with
  | none, none => none
  | some p, none => some p
  | none, some c => some c
  | some p, some c => some {
      window := optOr c.window p.window
      max_output := optOr c.max_output p.max_output }

/-- `config.rs` `merge_capabilities`. -/
def merge_capabilities (parent child : Option Capabilities) : Option Capabilities :=
  match parent, child with
  | none, none => none
  | some p, none => some p
  | none, some c => some c
  | some p, some c => some {
      vision := optOr c.vision p.vision
      tools := optOr c.tools p.tools
      reasoning := optOr c.reasoning p.reasoning
      max_context_tokens := optOr c.max_context_tokens p.max_context_tokens
      max_output_tokens := optOr c.max_output_tokens p.max_output_tokens }

/-- `config.rs` `merge_api_params`: headers are extended child-over-parent,
`extra_body` is deep-merged. -/
def merge_api_params (parent child : Option ApiParams) : Option ApiParams :=
  match parent, child with
  | none, none => none
  | some p, none => some p
  | none, some c => some c
  | some p, some c => some {
      timeout := optOr c.timeout p.timeout
      headers := extendMap p.headers c.headers
      extra_body := deep_merge_json p.extra_body c.extra_body
      retry := optOr c.retry p.retry }

/-- `config.rs` `merge_models` (child extends parent). -/
def merge_models (parent child : ModelConfig) : ModelConfig :=
  { extendsKey := child.extendsKey
    provider := optOr child.provider parent.provider
    api_model_id := optOr child.api_model_id parent.api_model_id
    aliases := parent.aliases ++ child.aliases
    context := merge_context parent.context child.context
    capabilities := merge_capabilities parent.capabilities child.capabilities
    min_reasoning := optOr child.min_reasoning parent.min_reasoning
    force_reasoning := optOr child.force_reasoning parent.force_reasoning
    max_tokens := optOr child.max_tokens parent.max_tokens
    override_max_tokens := optOr child.override_max_tokens parent.override_max_tokens
    override_map := merge_overrides parent.override_map child.override_map
    preprocess := merge_preprocess parent.preprocess child.preprocess
    api_params := merge_api_params parent.api_params child.api_params }

/-- `config.rs` `Rule`. -/
structure Rule where
  pattern : String
  match_features : List String
  target : String
  reasoning_target : Option String
  deriving DecidableEq

/-- `config.rs` `Profile` (only the `rules` field participates in the
modelled routing code; middleware settings are carried opaquely). -/
structure Profile where
  rules : List Rule
  enable_exit_tool : Option Bool
  deriving DecidableEq

/-- Fuel-indexed form of the glob matcher; every recursive call shrinks
`p.length + s.length`, so the wrapper's fuel is always sufficient and
the fuel only makes the recursion structural. -/
def globMatchFuel : Nat → List Char → List Char → Bool
  | 0, _, _ => false
  | _ + 1, [], [] => true
  | _ + 1, [], _ :: _ => false
  | fuel + 1, '*' :: ps, [] => globMatchFuel fuel ps []
  | fuel + 1, '*' :: ps, ch :: ss =>
    globMatchFuel fuel ps (ch :: ss) || globMatchFuel fuel ('*' :: ps) ss
  | _ + 1, _ :: _, [] => false
  | fuel + 1, c :: ps, ch :: ss =>
    (c.toLower = ch.toLower) && globMatchFuel fuel ps ss

/-- The anchored case-insensitive matcher produced by `glob_to_regex`
after `regex::escape`: every character is literal except `*`, which
matches any (possibly empty) substring. -/
def globMatchChars (p s : List Char) : Bool :=
  globMatchFuel (p.length + s.length + 1) p s

/-- `config.rs` `glob_to_regex` followed by `Regex::is_match`: the exact
pattern ".*" matches everything; otherwise the escaped pattern is matched
anchored and case-insensitively with `*` as the only wildcard. -/
def globMatch (pattern s : String) : Bool :=
  if pattern = ".*" then true
  else globMatchChars pattern.toList s.toList

/-- The rule-evaluation loop of `handlers.rs` `resolve_via_rules`. -/
def resolveRulesList (inputModel : String) (requestFeatures : List String) :
    List Rule → String
  | [] => inputModel
  | rule :: rest =>
    if globMatch rule.pattern inputModel then
      if rule.match_features ≠ [] then
        if requestFeatures.any (fun rf => rule.match_features.contains rf) then
          rule.target
        else
          resolveRulesList inputModel requestFeatures rest
      else
        rule.target
    else
      resolveRulesList inputModel requestFeatures rest

/-- `handlers.rs` `resolve_via_rules`: first matching rule wins, the
inbound alias passes through when no rule matches. -/
def resolve_via_rules (profile : Profile) (inputModel : String)
    (requestFeatures : List String) : String :=
  resolveRulesList inputModel requestFeatures profile.rules

/-- `handlers.rs` `check_overrides`: `OVERRIDE-MODEL-` selects a logical
model directly, a bare `OVERRIDE-` selects a profile. -/
def check_overrides (model : String) : Option String × Option String :=
  match dropPrefixStr "OVERRIDE-MODEL-" model with
  | some rest => (none, some rest)
  | none =>
    match dropPrefixStr "OVERRIDE-" model with
    | some rest => (some rest, none)
    | none => (none, none)

/-- The profile-resolution step of `handlers.rs` `handle_messages`: the
override profile (when present) or the configured current profile is
looked up; a missing profile is rejected with HTTP 500
(`StatusCode::INTERNAL_SERVER_ERROR`).  `none` means the handler
proceeds. -/
def profileResolutionError (profiles : List (String × Profile))
    (currentProfile : String) (model : String) : Option Nat :=
  let overrides := check_overrides model
  let profileName := overrides.1.getD currentProfile
  match lookupKey profileName profiles with
  | some _ => none
  | none => some 500

/-- The per-packet line loop of `handlers.rs` `parse_sse_stream`: lines
carrying a `data: ` payload are trimmed; `[DONE]` stops the packet, empty
payloads are skipped, payloads that parse yield a chunk, and payloads
that fail to parse are skipped silently.  The result items mirror the
stream item type `Result<Chunk, Error>`; the loop itself never produces
an error item. -/
def processPacketLines {α : Type} (parse : String → Option α) :
    List String → List (Except String α)
  | [] => []
  | line :: rest =>
    match dropPrefixStr "data: " line with
    | none => processPacketLines parse rest
    | some d =>
      let t := strTrim d
      if t = "[DONE]" then []
      else if t = "" then processPacketLines parse rest
      else
        match parse t with
        | some c => Except.ok c :: processPacketLines parse rest
        | none => processPacketLines parse rest

/-- `protocol.rs` `AnthropicImageSource`. -/
inductive AnthropicImageSource where
  | base64 (media_type data : String)
  | url (u : String)

mutual

/-- `protocol.rs` `AnthropicMessageContent` (string or block array);
mutually recursive with the block type because a `tool_result` carries
message content. -/
inductive AnthropicMessageContent where
  | str (s : String)
  | blocks (bs : List AnthropicContentBlock)

/-- `protocol.rs` `AnthropicContentBlock`. -/
inductive AnthropicContentBlock where
  | text (t : String)
  | image (source : AnthropicImageSource)
  | toolUse (id name : String) (input : Json)
  | toolResult (tool_use_id : String) (content : Option AnthropicMessageContent)
      (is_error : Option Bool)
  | thinking (signature thinkingText : String)
  | redactedThinking (data : String)

end

/-- `protocol.rs` `AnthropicMessage`. -/
structure AnthropicMessage where
  role : String
  content : AnthropicMessageContent

/-- `protocol.rs` `SystemBlock` (the flattened `other` map is dropped;
only `type` and `text` are read by the embedded code). -/
structure SystemBlock where
  blockType : String
  text : String

/-- `protocol.rs` `SystemPrompt`. -/
inductive SystemPrompt where
  | str (s : String)
  | arr (blocks : List SystemBlock)

/-- `protocol.rs` `AnthropicToolChoice`. -/
inductive AnthropicToolChoice where
  | auto
  | any
  | tool (name : String)

/-- `protocol.rs` `AnthropicTool` (with the `input_examples` field used
by the exit-tool enforcer). -/
structure AnthropicTool where
  name : String
  description : Option String
  input_schema : Json
  input_examples : Option (List Json)

/-- `protocol.rs` `AnthropicThinking`. -/
structure AnthropicThinking where
  thinkingType : String
  budget_tokens : Nat

/-- `protocol.rs` `AnthropicMessageRequest`.  The floating-point sampling
parameters (`temperature`, `top_p`) and the opaque `metadata` value are
outside the modelled fragment. -/
structure AnthropicMessageRequest where
  model : String
  messages : List AnthropicMessage
  max_tokens : Option Nat
  stop_sequences : Option (List String)
  stream : Option Bool
  system : Option SystemPrompt
  tool_choice : Option AnthropicToolChoice
  tools : Option (List AnthropicTool)
  top_k : Option Nat
  thinking : Option AnthropicThinking

/-- `tool_enforcer.rs` `get_exit_tool_def`: the synthesized `ExitTool`
definition (object schema with a single required string property
`response`). -/
def get_exit_tool_def : AnthropicTool :=
  { name := "ExitTool"
    description := some
      "Use this tool when you are in tool mode and have completed the task. The response argument will be returned to the user."
    input_schema := Json.obj
      [ ("type", Json.str "object")
      , ("properties", Json.obj
          [ ("response", Json.obj
              [ ("type", Json.str "string")
              , ("description", Json.str "The final response to the user.") ]) ])
      , ("required", Json.arr [Json.str "response"]) ]
    input_examples := none }

/-- `tool_enforcer.rs` `ToolEnforcerMiddleware::on_request`: when a tools
list is present, append `ExitTool` unless one is already there; nothing
else on the request is touched. -/
def toolEnforcerOnRequest (req : AnthropicMessageRequest) : AnthropicMessageRequest :=
  match req.tools with
  | some tools =>
    if tools.any (fun t => t.name = "ExitTool") then req
    else { req with tools := some (tools ++ [get_exit_tool_def]) }
  | none => req

/-- A `tool_use` block removed by sanitization pass 1: an empty name. -/
def isBadToolUse (b : AnthropicContentBlock) : Bool :=
  match b with
  | AnthropicContentBlock.toolUse _ name _ => name = ""
  | _ => false

/-- The bad-tool-use ids one message contributes to `removed_tool_ids`
during pass 1 of `request.rs` `preprocess_messages`. -/
def badIdsOfMsg (m : AnthropicMessage) : List String :=
  if m.role = "assistant" then
    match m.content with
    | AnthropicMessageContent.blocks bs =>
      bs.filterMap fun b =>
        match b with
        | AnthropicContentBlock.toolUse id name _ =>
          if name = "" then some id else none
        | _ => none
    | _ => []
  else []

/-- All ids recorded in `removed_tool_ids` (the hash set is modelled as
the list of contributions in iteration order; only membership is used). -/
def collectBadIds (msgs : List AnthropicMessage) : List String :=
  msgs.flatMap badIdsOfMsg

/-- Pass 1 of the sanitizer on one message: drop empty-name `tool_use`
blocks from assistant block-content. -/
def pass1Msg (m : AnthropicMessage) : AnthropicMessage :=
  if m.role = "assistant" then
    match m.content with
    | AnthropicMessageContent.blocks bs =>
      { m with content :=
          AnthropicMessageContent.blocks (bs.filter (fun b => !(isBadToolUse b))) }
    | _ => m
  else m

/-- Pass 2 on one message: drop `tool_result` blocks whose id was
recorded. -/
def pass2Msg (ids : List String) (m : AnthropicMessage) : AnthropicMessage :=
  match m.content with
  | AnthropicMessageContent.blocks bs =>
    { m with content :=
        AnthropicMessageContent.blocks (bs.filter (fun b =>
          match b with
          | AnthropicContentBlock.toolResult tid _ _ => !(ids.contains tid)
          | _ => true)) }
  | _ => m

/-- The retention predicate removing messages emptied by filtering. -/
def msgNonEmpty (m : AnthropicMessage) : Bool :=
  match m.content with
  | AnthropicMessageContent.blocks bs => !bs.isEmpty
  | AnthropicMessageContent.str s => s != ""

/-- The tool-history sanitizer of `request.rs` `preprocess_messages`
(the `sanitize_tool_history` branch): pass 1 removes empty-name
`tool_use` blocks from assistant messages recording their ids; only when
ids were recorded, pass 2 removes the matching `tool_result` blocks and
messages emptied by filtering are dropped. -/
def sanitize_tool_history (msgs : List AnthropicMessage) : List AnthropicMessage :=
  if collectBadIds msgs = [] then msgs.map pass1Msg
  else (((msgs.map pass1Msg).map (pass2Msg (collectBadIds msgs))).filter msgNonEmpty)

/-- `serde_json` `Number::as_u64` on the integer model. -/
def jsonAsU64 (n : Int) : Option Nat :=
  if 0 ≤ n ∧ n < 2 ^ 64 then some n.toNat else none

/-- The max-tokens policy of `request.rs` `convert_request` (lines
22-61), as the code executes it: (1) a model `max_tokens` override
replaces the request value; (2) when `preprocess.max_output_tokens` is
present, the string "auto" clears the value and a `u64` number sets it
(cast `as u32`, hence mod 2^32), while in its absence `max_output_cap`
performs a legacy clamp; (3) `max_output_cap` clamps again. -/
def applyMaxTokensPolicy (reqMax mcMax : Option Nat)
    (pp : Option PreprocessConfig) : Option Nat :=
  let m1 := match mcMax with
    | some v => some v
    | none => reqMax
  match pp with
  | none => m1
  | some p =>
    let m2 := match p.max_output_tokens with
      | some (Json.str s) => if s = "auto" then none else m1
      | some (Json.num n) =>
        match jsonAsU64 n with
        | some u => some (u % 2 ^ 32)
        | none => m1
      | some _ => m1
      | none =>
        match p.max_output_cap, m1 with
        | some cap, some cur => if cur > cap then some cap else some cur
        | _, _ => m1
    match p.max_output_cap, m2 with
    | some cap, some cur => if cur > cap then some cap else m2
    | _, _ => m2

/-- Modelled from the spec's wording of the max-tokens policy, for
comparison with `applyMaxTokensPolicy`: (1) the model override replaces
the request value; (2) "auto" clears it, a numeric value sets it; (3) the
cap clamps when the current value exceeds it. -/
def maxTokensPolicySpec (reqMax mcMax : Option Nat)
    (pp : Option PreprocessConfig) : Option Nat :=
  let s1 := match mcMax with
    | some v => some v
    | none => reqMax
  let s2 := match pp.bind (fun p => p.max_output_tokens) with
    | some (Json.str s) => if s = "auto" then none else s1
    | some (Json.num n) => if 0 ≤ n then some n.toNat else s1
    | _ => s1
  match pp.bind (fun p => p.max_output_cap), s2 with
  | some cap, some cur => if cur > cap then some cap else s2
  | _, _ => s2

/-- `protocol.rs` `OpenAIChunkFunction`. -/
structure OpenAIChunkFunction where
  name : Option String
  arguments : Option String

/-- `protocol.rs` `OpenAIChunkToolCall`. -/
structure OpenAIChunkToolCall where
  index : Nat
  id : Option String
  callType : Option String
  function : Option OpenAIChunkFunction

/-- `protocol.rs` `OpenAIDelta`. -/
structure OpenAIDelta where
  role : Option String
  content : Option String
  tool_calls : Option (List OpenAIChunkToolCall)
  reasoning : Option String
  reasoning_content : Option String

/-- `protocol.rs` `OpenAIChunkChoice`. -/
structure OpenAIChunkChoice where
  index : Nat
  delta : OpenAIDelta
  finish_reason : Option String

/-- `protocol.rs` `OpenAIUsage`. -/
structure OpenAIUsage where
  prompt_tokens : Nat
  completion_tokens : Nat
  total_tokens : Nat

/-- `protocol.rs` `OpenAIChatCompletionChunk`. -/
structure OpenAIChatCompletionChunk where
  id : String
  object : String
  created : Nat
  model : String
  choices : List OpenAIChunkChoice
  usage : Option OpenAIUsage

/-- `protocol.rs` `AnthropicUsage`. -/
structure AnthropicUsage where
  input_tokens : Nat
  output_tokens : Nat

/-- `protocol.rs` `AnthropicMessageResponse`. -/
structure AnthropicMessageResponse where
  id : String
  respType : String
  role : String
  content : List AnthropicContentBlock
  model : String
  stop_reason : Option String
  stop_sequence : Option String
  usage : AnthropicUsage

/-- `protocol.rs` `AnthropicDelta` (stream deltas). -/
inductive AnthropicDelta where
  | textDelta (text : String)
  | inputJsonDelta (partial_json : String)
  | thinkingDelta (thinkingText : String)
  | signatureDelta (signature : String)

/-- `protocol.rs` `AnthropicMessageDelta`. -/
structure AnthropicMessageDelta where
  stop_reason : Option String
  stop_sequence : Option String

/-- `protocol.rs` `AnthropicStreamEvent`. -/
inductive AnthropicStreamEvent where
  | messageStart (message : AnthropicMessageResponse)
  | contentBlockStart (index : Nat) (content_block : AnthropicContentBlock)
  | contentBlockDelta (index : Nat) (delta : AnthropicDelta)
  | contentBlockStop (index : Nat)
  | messageDelta (delta : AnthropicMessageDelta) (usage : AnthropicUsage)
  | messageStop
  | ping
  | errorEvent (error : Json)

/-- `response.rs` `BlockType`. -/
inductive BlockType where
  | text
  | thinking
  | toolUse
  deriving DecidableEq

/-- `response.rs` `StreamState`.  The open-index hash set becomes a list
drained in list order (it never holds more than one element outside the
tool-call path) and the tool-index hash map an association list. -/
structure StreamState where
  block_index : Nat
  active_block_type : Option BlockType
  open_block_indices : List Nat
  tool_index_map : List (Nat × Nat)
  msg_id : String
  model : String

/-- The shared transition of the thinking and text branches of
`response.rs` `convert_stream`: when the active block type differs from
the desired one, stop all open blocks, bump the index if a block type was
active, and start a fresh zero-valued block of the desired type. -/
def ensureBlockType (st : StreamState) (t : BlockType)
    (startBlock : AnthropicContentBlock) : StreamState × List AnthropicStreamEvent :=
  if st.active_block_type = some t then (st, [])
  else
    let stops := st.open_block_indices.map AnthropicStreamEvent.contentBlockStop
    let newIndex := if st.active_block_type.isSome then st.block_index + 1 else st.block_index
    ({ st with
        block_index := newIndex
        active_block_type := some t
        open_block_indices := [newIndex] },
     stops ++ [AnthropicStreamEvent.contentBlockStart newIndex startBlock])

/-- One entry of the tool-call loop of `convert_stream`: an entry with an
`id` opens a new `tool_use` block at the current index (mapping the
upstream index to it) and bumps the index; an entry with `arguments`
emits an `input_json_delta` at the mapped index. -/
def processOneToolCall (st : StreamState) (tc : OpenAIChunkToolCall) :
    StreamState × List AnthropicStreamEvent :=
  let (st1, evs1) := match tc.id with
    | some tid =>
      ({ st with
          tool_index_map := insertEntry st.tool_index_map tc.index st.block_index
          open_block_indices := st.open_block_indices ++ [st.block_index]
          block_index := st.block_index + 1 },
       [AnthropicStreamEvent.contentBlockStart st.block_index
          (AnthropicContentBlock.toolUse tid
            ((tc.function.bind (fun f => f.name)).getD "") (Json.obj []))])
    | none => (st, [])
  let evs2 := match tc.function.bind (fun f => f.arguments) with
    | some args =>
      match lookupKey tc.index st1.tool_index_map with
      | some aidx =>
        [AnthropicStreamEvent.contentBlockDelta aidx (AnthropicDelta.inputJsonDelta args)]
      | none => []
    | none => []
  (st1, evs1 ++ evs2)

/-- The tool-call branch of `convert_stream`: close a differently-typed
active block (bumping the index) before folding over the entries. -/
def processToolCalls (st : StreamState) (tcs : List OpenAIChunkToolCall) :
    StreamState × List AnthropicStreamEvent :=
  let (st1, evs1) :=
    if st.active_block_type = some BlockType.toolUse then (st, [])
    else if st.active_block_type.isSome then
      let stops := st.open_block_indices.map AnthropicStreamEvent.contentBlockStop
      ({ st with
          open_block_indices := []
          block_index := st.block_index + 1
          active_block_type := some BlockType.toolUse }, stops)
    else ({ st with active_block_type := some BlockType.toolUse }, [])
  let (st2, evs2) := tcs.foldl
    (fun (acc : StreamState × List AnthropicStreamEvent) tc =>
      let (s, e) := processOneToolCall acc.1 tc
      (s, acc.2 ++ e))
    (st1, [])
  (st2, evs1 ++ evs2)

/-- The `finish_reason` mapping of `convert_stream` and
`convert_response`. -/
def mapFinishReason (s : String) : String :=
  if s = "tool_calls" then "tool_use"
  else if s = "stop" then "end_turn"
  else if s = "length" then "max_tokens"
  else "end_turn"

/-- Step 1 of `convert_stream` for one delta: the `reasoning` /
`reasoning_content` branch. -/
def reasoningPhase (st : StreamState) (delta : OpenAIDelta) :
    StreamState × List AnthropicStreamEvent :=
  match optOr delta.reasoning delta.reasoning_content with
  | some r =>
    if r ≠ "" then
      let (s, e) := ensureBlockType st BlockType.thinking
        (AnthropicContentBlock.thinking "signature" "")
      (s, e ++ [AnthropicStreamEvent.contentBlockDelta s.block_index
        (AnthropicDelta.thinkingDelta r)])
    else (st, [])
  | none => (st, [])

/-- Step 2 of `convert_stream` for one delta: the text-content branch. -/
def contentPhase (st : StreamState) (delta : OpenAIDelta) :
    StreamState × List AnthropicStreamEvent :=
  match delta.content with
  | some c =>
    if c ≠ "" then
      let (s, e) := ensureBlockType st BlockType.text (AnthropicContentBlock.text "")
      (s, e ++ [AnthropicStreamEvent.contentBlockDelta s.block_index
        (AnthropicDelta.textDelta c)])
    else (st, [])
  | none => (st, [])

/-- Step 3 of `convert_stream` for one delta: the tool-call branch. -/
def toolsPhase (st : StreamState) (delta : OpenAIDelta) :
    StreamState × List AnthropicStreamEvent :=
  match delta.tool_calls with
  | some tcs => processToolCalls st tcs
  | none => (st, [])

/-- Step 4 of `convert_stream` for one choice: on a finish reason, close
all open blocks and emit the mapped `message_delta`. -/
def finishPhase (st : StreamState) (finish_reason : Option String) :
    StreamState × List AnthropicStreamEvent :=
  match finish_reason with
  | some finish =>
    let stops := st.open_block_indices.map AnthropicStreamEvent.contentBlockStop
    ({ st with open_block_indices := [] },
     stops ++ [AnthropicStreamEvent.messageDelta
       { stop_reason := some (mapFinishReason finish), stop_sequence := none }
       { input_tokens := 0, output_tokens := 0 }])
  | none => (st, [])

/-- Processing of one chunk choice's delta (`convert_stream` steps 1-4):
reasoning, text content, tool calls, then finish reason. -/
def processChoice (st : StreamState) (choice : OpenAIChunkChoice) :
    StreamState × List AnthropicStreamEvent :=
  let (st1, evs1) := reasoningPhase st choice.delta
  let (st2, evs2) := contentPhase st1 choice.delta
  let (st3, evs3) := toolsPhase st2 choice.delta
  let (st4, evs4) := finishPhase st3 choice.finish_reason
  (st4, evs1 ++ evs2 ++ evs3 ++ evs4)

/-- Processing of one `Ok` chunk inside the `convert_stream` loop (after
first-chunk initialization): the first choice's delta, then a usage-only
`message_delta` when the chunk carries usage. -/
def processChunkBody (st : StreamState) (chunk : OpenAIChatCompletionChunk) :
    StreamState × List AnthropicStreamEvent :=
  let (st1, evs1) := match chunk.choices.head? with
    | some choice => processChoice st choice
    | none => (st, [])
  let evs2 := match chunk.usage with
    | some u =>
      [AnthropicStreamEvent.messageDelta
        { stop_reason := none, stop_sequence := none }
        { input_tokens := u.prompt_tokens, output_tokens := u.completion_tokens }]
    | none => []
  (st1, evs1 ++ evs2)

/-- First-chunk initialization of `convert_stream`: capture the model
and message id (rewriting a `chatcmpl` prefix to `msg`). -/
def initOnFirstChunk (st : StreamState) (chunk : OpenAIChatCompletionChunk) : StreamState :=
  let msgId :=
    if chunk.id = "" then st.msg_id
    else if chunk.id.startsWith "chatcmpl" then chunk.id.replace "chatcmpl" "msg"
    else chunk.id
  { st with model := chunk.model, msg_id := msgId }

/-- The `message_start` payload emitted on the first chunk: empty content
and zero usage. -/
def mkStartMessage (st : StreamState) : AnthropicMessageResponse :=
  { id := st.msg_id
    respType := "message"
    role := "assistant"
    content := []
    model := st.model
    stop_reason := none
    stop_sequence := none
    usage := { input_tokens := 0, output_tokens := 0 } }

/-- The main loop of `response.rs` `convert_stream` over the incoming
item list: `Ok` chunks are translated (the first one also emits
`message_start` and `ping`), `Err` items become an `error` event and the
loop continues; `message_stop` is emitted after the input ends. -/
def convertStreamGo (st : StreamState) (firstChunk : Bool) :
    List (Except String OpenAIChatCompletionChunk) → List AnthropicStreamEvent
  | [] => [AnthropicStreamEvent.messageStop]
  | Except.error e :: rest =>
    AnthropicStreamEvent.errorEvent (Json.obj [("message", Json.str e)]) ::
      convertStreamGo st firstChunk rest
  | Except.ok chunk :: rest =>
    if firstChunk then
      let st0 := initOnFirstChunk st chunk
      let (st1, evs) := processChunkBody st0 chunk
      AnthropicStreamEvent.messageStart (mkStartMessage st0) ::
        AnthropicStreamEvent.ping :: (evs ++ convertStreamGo st1 false rest)
    else
      let (st1, evs) := processChunkBody st chunk
      evs ++ convertStreamGo st1 false rest

/-- `response.rs` `convert_stream` as a function of the incoming item
list; `freshId` stands for the random UUID of the initial state. -/
def convert_stream (freshId : String)
    (items : List (Except String OpenAIChatCompletionChunk)) : List AnthropicStreamEvent :=
  convertStreamGo
    { block_index := 0
      active_block_type := none
      open_block_indices := []
      tool_index_map := []
      msg_id := "msg_" ++ freshId
      model := "" }
    true items

/-- State of the block-protocol checker: the index the next block must
open at, and the currently open index (if any). -/
structure ScanState where
  nextIndex : Nat
  openAt : Option Nat
  deriving DecidableEq

/-- One step of the block-protocol checker.  A `content_block_start` is
legal only at the expected index with no block open; deltas and stops are
legal only at the open index; all other events are ignored. -/
def scanStep (s : ScanState) : AnthropicStreamEvent → Option ScanState
  | AnthropicStreamEvent.contentBlockStart i _ =>
    if s.openAt = none ∧ i = s.nextIndex then some { nextIndex := i, openAt := some i }
    else none
  | AnthropicStreamEvent.contentBlockDelta i _ =>
    if s.openAt = some i then some s else none
  | AnthropicStreamEvent.contentBlockStop i =>
    if s.openAt = some i then some { nextIndex := s.nextIndex + 1, openAt := none }
    else none
  | _ => some s

/-- Run the block-protocol checker over an event list. -/
def scanEvents (s : ScanState) : List AnthropicStreamEvent → Option ScanState
  | [] => some s
  | e :: rest =>
    match scanStep s e with
    | some s2 => scanEvents s2 rest
    | none => none

/-- The block invariants claimed for one response: starts at indices
0, 1, 2, ... in order, exactly one stop per start at the same index, all
intervening deltas at that index, and no block left open. -/
def blocksWellFormed (evs : List AnthropicStreamEvent) : Bool :=
  match scanEvents { nextIndex := 0, openAt := none } evs with
  | some s => s.openAt.isNone
  | none => false

/-- The emitted sequence begins with `message_start` followed by
`ping`. -/
def beginsWithStartPing (evs : List AnthropicStreamEvent) : Bool :=
  match evs with
  | AnthropicStreamEvent.messageStart _ :: AnthropicStreamEvent.ping :: _ => true
  | _ => false

/-- The emitted sequence ends with `message_stop`. -/
def endsWithMessageStop (evs : List AnthropicStreamEvent) : Bool :=
  match evs.getLast? with
  | some AnthropicStreamEvent.messageStop => true
  | _ => false

/-- An `error` stream event. -/
def isErrorEvent (e : AnthropicStreamEvent) : Bool :=
  match e with
  | AnthropicStreamEvent.errorEvent _ => true
  | _ => false

/-- An `Err` item of the upstream chunk stream. -/
def isErrItem (i : Except String OpenAIChatCompletionChunk) : Bool :=
  match i with
  | Except.error _ => true
  | Except.ok _ => false

/-- Key-wise description of `deep_merge_json`, following the spec's
wording: a key absent from the override keeps the base binding, two
objects merge recursively, and any other override value replaces the
base binding. -/
def deepMergeSpecLookup (b o : List (String × Json)) (k : String) : Option Json :=
  match lookupKey k o with
  | none => lookupKey k b
  | some v =>
    match lookupKey k b, v with
    | some (Json.obj bo), Json.obj oo => some (Json.obj (deep_merge_json bo oo))
    | _, _ => some v

/-- A chunk whose first choice (if any) carries neither tool calls nor a
finish reason. -/
def intermediateChunk (c : OpenAIChatCompletionChunk) : Bool :=
  match c.choices.head? with
  | some ch => ch.delta.tool_calls.isNone && ch.finish_reason.isNone
  | none => true

/-- A chunk whose first choice carries a finish reason and no tool
calls. -/
def finalChunk (c : OpenAIChatCompletionChunk) : Bool :=
  match c.choices.head? with
  | some ch => ch.delta.tool_calls.isNone && ch.finish_reason.isSome
  | none => false

/-- Stream-state well-formedness outside the tool-call path: no open
index without an active type, and exactly the current index open with
one. -/
def StInv (st : StreamState) : Prop :=
  match st.active_block_type with
  | none => st.open_block_indices = []
  | some _ => st.open_block_indices = [st.block_index]

/-- The checker state corresponding to a well-formed stream state. -/
def stScan (st : StreamState) : ScanState :=
  match st.active_block_type with
  | none => { nextIndex := st.block_index, openAt := none }
  | some _ => { nextIndex := st.block_index, openAt := some st.block_index }

/-- A single text-content chunk without a finish reason (the upstream
simply ends afterwards). -/
def c2Chunk : OpenAIChatCompletionChunk :=
  { id := ""
    object := "chat.completion.chunk"
    created := 0
    model := "m"
    choices := [{ index := 0
                  delta := { role := some "assistant", content := some "hi",
                             tool_calls := none, reasoning := none,
                             reasoning_content := none }
                  finish_reason := none }]
    usage := none }

/-- A final text chunk carrying a finish reason. -/
def c2FinalChunk : OpenAIChatCompletionChunk :=
  { id := ""
    object := "chat.completion.chunk"
    created := 0
    model := "m"
    choices := [{ index := 0
                  delta := { role := none, content := some "!",
                             tool_calls := none, reasoning := none,
                             reasoning_content := none }
                  finish_reason := some "stop" }]
    usage := none }

/-- The request of the exit-tool enforcer unit test: one ordinary tool,
no tool choice, no system prompt. -/
def c4Request : AnthropicMessageRequest :=
  { model := "claude-3-opus-20240229"
    messages := []
    max_tokens := some 1024
    stop_sequences := none
    stream := none
    system := none
    tool_choice := none
    tools := some [{ name := "test_tool"
                     description := none
                     input_schema := Json.obj [("type", Json.str "object")]
                     input_examples := none }]
    top_k := none
    thinking := none }

/-- No assistant message of the list still carries an empty-name
`tool_use` block. -/
def noBad (msgs : List AnthropicMessage) : Prop :=
  ∀ m ∈ msgs, ∀ bs, m.role = "assistant" →
    m.content = AnthropicMessageContent.blocks bs →
    ∀ b ∈ bs, isBadToolUse b = false

/-! ## Theorems -/

/-- C1: the rule resolver of `handlers.rs` ignores `reasoning_target`.
On a profile with the single rule (pattern "reasoning*", no feature
constraint, target "logical-gpt4", reasoning target "logical-o1") and a
request with alias "reasoning-claude" and the `reasoning` feature, the
claim (and the repository's integration test) requires the resolved
logical ID to be the rule's reasoning target, but `resolve_via_rules`
returns the plain target. -/
theorem C1_router_ignores_reasoning_target :
    resolve_via_rules
      { rules := [{ pattern := "reasoning*", match_features := [],
                    target := "logical-gpt4",
                    reasoning_target := some "logical-o1" }],
        enable_exit_tool := none }
      "reasoning-claude" ["reasoning"] = "logical-gpt4" ∧
    ("logical-gpt4" : String) ≠ "logical-o1" := by
  constructor
  · decide
  · decide

/-- C4: the exit-tool enforcer's `on_request` hook only appends the
`ExitTool` definition.  On the request of the repository's own
middleware test (one ordinary tool, no tool choice, no system prompt)
the hook leaves `tool_choice` as `None` — although the claim and the
test `test_tool_enforcer_injects_exit_tool_and_forces_choice` require it
to be forced to `any` — and leaves the system prompt untouched instead
of appending a reminder. -/
theorem C4_on_request_only_appends_exit_tool :
    (toolEnforcerOnRequest c4Request).tool_choice = none ∧
    (toolEnforcerOnRequest c4Request).system = none ∧
    (toolEnforcerOnRequest c4Request).tools =
      some [{ name := "test_tool"
              description := none
              input_schema := Json.obj [("type", Json.str "object")]
              input_examples := none },
            get_exit_tool_def] := by
  refine ⟨rfl, rfl, rfl⟩

/-- C2 counterexample: on the upstream sequence made of the single
text chunk `c2Chunk` (one chunk, no error item, no finish reason) the
translator opens a text block at index 0 but never emits its
`content_block_stop`, so the claimed block invariants fail. -/
theorem C2_counterexample_unclosed_block :
    blocksWellFormed (convert_stream "x" [Except.ok c2Chunk]) = false := by
  decide

/-- C3 counterexample: on an upstream sequence consisting of one error
item, the translator emits the error event and then still emits
`message_stop`, contradicting the claim that the stream terminates
without `message_stop`. -/
theorem C3_counterexample_message_stop_after_error :
    convert_stream "x" [Except.error "boom"] =
      [AnthropicStreamEvent.errorEvent (Json.obj [("message", Json.str "boom")]),
       AnthropicStreamEvent.messageStop] := rfl

/-- C9 counterexample: a request whose model string is `OVERRIDE-nope`
against a configuration whose only profile is `default` is rejected with
HTTP 500 (`INTERNAL_SERVER_ERROR`), not with the claimed 400. -/
theorem C9_counterexample_unknown_profile_is_500 :
    profileResolutionError
      [("default", { rules := [], enable_exit_tool := none })]
      "default" "OVERRIDE-nope" = some 500 ∧
    (500 : Nat) ≠ 400 := by
  constructor
  · decide
  · decide

/-- C9 amended: whenever the model string selects an override profile
that is not among the configured profiles, `handle_messages` rejects the
request with HTTP 500. -/
theorem C9_unknown_profile_rejected_with_500
    (profiles : List (String × Profile)) (currentProfile model p : String)
    (h1 : (check_overrides model).1 = some p)
    (h2 : lookupKey p profiles = (none : Option Profile)) :
    profileResolutionError profiles currentProfile model = some 500 := by
  simp only [profileResolutionError, h1, Option.getD_some, h2]

/-- Witness for `C9_unknown_profile_rejected_with_500` at the concrete
counterexample configuration. -/
theorem C9_unknown_profile_witness :
    profileResolutionError
      [("default", { rules := [], enable_exit_tool := none })]
      "default" "OVERRIDE-missing" = some 500 :=
  C9_unknown_profile_rejected_with_500 _ _ _ "missing" (by decide) (by decide)

theorem dropPrefixChars_append (p s : List Char) :
    dropPrefixChars p (p ++ s) = some s := by
  induction p with
  | nil => rfl
  | cons c cs ih => simp [dropPrefixChars, ih]

theorem dropPrefixStr_append (p s : String) :
    dropPrefixStr p (p ++ s) = some s := by
  have hdata : (p ++ s).toList = p.toList ++ s.toList := String.data_append p s
  simp only [dropPrefixStr, hdata, dropPrefixChars_append, Option.map_some]
  rfl

theorem processPacket_no_error (parse : String → Option OpenAIChatCompletionChunk)
    (lines : List String) (e : String) :
    Except.error e ∉ processPacketLines parse lines := by
  induction lines with
  | nil => simp [processPacketLines]
  | cons line rest ih =>
    intro hmem
    simp only [processPacketLines] at hmem
    split at hmem
    · exact ih hmem
    · split at hmem
      · simp at hmem
      · split at hmem
        · exact ih hmem
        · split at hmem
          · rcases List.mem_cons.mp hmem with h | h
            · simp at h
            · exact ih h
          · exact ih hmem

/-- C10: a complete SSE segment line whose `data: ` payload is neither
`[DONE]` nor empty but fails to parse is skipped silently — the packet
loop produces the same chunks as if the line were absent — and the loop
never yields an error item for malformed JSON. -/
theorem C10_malformed_payload_skipped
    (parse : String → Option OpenAIChatCompletionChunk)
    (pre post : List String) (d : String) (lines : List String) (e : String)
    (hparse : parse (strTrim d) = none)
    (hdone : strTrim d ≠ "[DONE]")
    (hempty : strTrim d ≠ "") :
    processPacketLines parse (pre ++ ("data: " ++ d) :: post) =
      processPacketLines parse (pre ++ post) ∧
    Except.error e ∉ processPacketLines parse lines := by
  refine ⟨?_, processPacket_no_error parse lines e⟩
  induction pre with
  | nil =>
    simp only [List.nil_append, processPacketLines, dropPrefixStr_append,
      if_neg hdone, if_neg hempty, hparse]
  | cons line rest ih =>
    simp only [List.cons_append, processPacketLines]
    split
    · exact ih
    · split
      · rfl
      · split
        · exact ih
        · split
          · exact congrArg (List.cons _) ih
          · exact ih

/-- Witness for `C10_malformed_payload_skipped` on a concrete packet
with an unparsable payload between two other lines. -/
theorem C10_malformed_payload_witness :
    processPacketLines (fun _ => (none : Option OpenAIChatCompletionChunk))
        (["ignored line"] ++ ("data: " ++ "notjson") :: ["data: "]) =
      processPacketLines (fun _ => (none : Option OpenAIChatCompletionChunk))
        (["ignored line"] ++ ["data: "]) ∧
    Except.error "boom"
      ∉ processPacketLines (fun _ => (none : Option OpenAIChatCompletionChunk))
          ["data: notjson"] :=
  C10_malformed_payload_skipped (fun _ => none) ["ignored line"] ["data: "]
    "notjson" ["data: notjson"] "boom" rfl (by decide) (by decide)

/-- C6 counterexample: the claim's step (2) — a numeric
`preprocess.max_output_tokens` sets `max_tokens` to that number — fails
for values outside `u32`.  With the numeric policy 4294967301 (= 2^32 +
5) and no override or cap, the code's `as u32` cast sets `max_tokens`
to 5, not to the configured number, so the code and the claim's
three-step description disagree at this config. -/
theorem C6_counterexample_u32_wrap :
    applyMaxTokensPolicy none none
        (some { merge_system_messages := none, sanitize_tool_history := none,
                max_output_tokens := some (Json.num 4294967301),
                max_output_cap := none,
                disable_parallel_tool_calls := none, strict_tools := none,
                clean_web_search := none, json_repair := none }) = some 5 ∧
    maxTokensPolicySpec none none
        (some { merge_system_messages := none, sanitize_tool_history := none,
                max_output_tokens := some (Json.num 4294967301),
                max_output_cap := none,
                disable_parallel_tool_calls := none, strict_tools := none,
                clean_web_search := none, json_repair := none }) = some 4294967301 ∧
    (some 5 : Option Nat) ≠ some 4294967301 := by
  refine ⟨?_, ?_, ?_⟩
  · decide
  · decide
  · decide

/-- C6 amended: the max-tokens computation of `convert_request` agrees
with the spec's three-step description — model override first, then the
"auto"/numeric `max_output_tokens` policy, then the `max_output_cap`
clamp — for every configuration whose numeric policy value fits in
`u32`; the `as u32` cast in the code makes larger values wrap, as
`C6_counterexample_u32_wrap` shows. -/
theorem C6_max_tokens_policy_eq
    (reqMax mcMax : Option Nat) (pp : Option PreprocessConfig)
    (hnum : ∀ n : Int, (pp.bind fun p => p.max_output_tokens) = some (Json.num n) →
      0 ≤ n ∧ n < 2 ^ 32) :
    applyMaxTokensPolicy reqMax mcMax pp = maxTokensPolicySpec reqMax mcMax pp := by
  cases pp with
  | none => rfl
  | some p =>
    have hnum' : ∀ n : Int, p.max_output_tokens = some (Json.num n) →
        0 ≤ n ∧ n < 2 ^ 32 := by
      intro n hn
      exact hnum n (by simp [Option.bind, hn])
    simp only [applyMaxTokensPolicy, maxTokensPolicySpec, Option.bind]
    cases hmot : p.max_output_tokens with
    | none =>
      cases hcap : p.max_output_cap with
      | none => rfl
      | some cap =>
        cases hm1 : (match mcMax with | some v => some v | none => reqMax) with
        | none => rfl
        | some cur =>
          by_cases hgt : cur > cap
          · simp [hgt, Nat.lt_irrefl]
          · simp [hgt]
    | some v =>
      cases v with
      | num n =>
        rcases hnum' n hmot with ⟨h0, h32⟩
        have h64 : n < 2 ^ 64 := lt_trans h32 (by norm_num)
        have h64' : n < (18446744073709551616 : Int) := by
          have : ((2 : Int) ^ 64) = 18446744073709551616 := by norm_num
          omega
        have hmod : n.toNat % 4294967296 = n.toNat := by
          have : n.toNat < 4294967296 := by omega
          exact Nat.mod_eq_of_lt this
        simp [jsonAsU64, h0, h32, h64, h64', hmod]
      | str s =>
        by_cases hauto : s = "auto"
        · simp [hauto]
        · simp [hauto]
      | null => rfl
      | bool b => rfl
      | arr xs => rfl
      | obj fs => rfl

/-- Witness for `C6_max_tokens_policy_eq`: request 100, model override
5000, numeric policy 2048, cap 1024. -/
theorem C6_max_tokens_policy_witness :
    applyMaxTokensPolicy (some 100) (some 5000)
        (some { merge_system_messages := none, sanitize_tool_history := none,
                max_output_tokens := some (Json.num 2048),
                max_output_cap := some 1024,
                disable_parallel_tool_calls := none, strict_tools := none,
                clean_web_search := none, json_repair := none }) =
      maxTokensPolicySpec (some 100) (some 5000)
        (some { merge_system_messages := none, sanitize_tool_history := none,
                max_output_tokens := some (Json.num 2048),
                max_output_cap := some 1024,
                disable_parallel_tool_calls := none, strict_tools := none,
                clean_web_search := none, json_repair := none }) :=
  C6_max_tokens_policy_eq (some 100) (some 5000) _ (by
    intro n hn
    simp only [Option.bind] at hn
    cases hn
    constructor
    · norm_num
    · norm_num)

theorem pass1Msg_mk_blocks (role : String) (bs : List AnthropicContentBlock)
    (hr : role = "assistant") :
    pass1Msg { role := role, content := AnthropicMessageContent.blocks bs } =
      { role := role,
        content := AnthropicMessageContent.blocks
          (bs.filter (fun b => !(isBadToolUse b))) } := by
  simp [pass1Msg, hr]

theorem pass1Msg_mk_str (role s : String) :
    pass1Msg { role := role, content := AnthropicMessageContent.str s } =
      { role := role, content := AnthropicMessageContent.str s } := by
  unfold pass1Msg
  split <;> rfl

theorem pass1Msg_not_assistant (m : AnthropicMessage) (hr : m.role ≠ "assistant") :
    pass1Msg m = m := by
  simp [pass1Msg, hr]

theorem noBad_map_pass1 (msgs : List AnthropicMessage) : noBad (msgs.map pass1Msg) := by
  intro m' hm' bs hrole hcontent b hb
  rcases List.mem_map.mp hm' with ⟨m, _, rfl⟩
  obtain ⟨role, content⟩ := m
  by_cases hr : role = "assistant"
  · cases content with
    | str s =>
      rw [pass1Msg_mk_str] at hcontent
      simp at hcontent
    | blocks bs0 =>
      rw [pass1Msg_mk_blocks role bs0 hr] at hcontent
      simp only [AnthropicMessageContent.blocks.injEq] at hcontent
      subst hcontent
      simpa using (List.mem_filter.mp hb).2
  · rw [pass1Msg_not_assistant _ hr] at hrole
    exact absurd hrole hr

theorem pass2Msg_mk_blocks (ids : List String) (role : String)
    (bs : List AnthropicContentBlock) :
    pass2Msg ids { role := role, content := AnthropicMessageContent.blocks bs } =
      { role := role,
        content := AnthropicMessageContent.blocks
          (bs.filter (fun b =>
            match b with
            | AnthropicContentBlock.toolResult tid _ _ => !(ids.contains tid)
            | _ => true)) } := rfl

theorem pass2Msg_mk_str (ids : List String) (role s : String) :
    pass2Msg ids { role := role, content := AnthropicMessageContent.str s } =
      { role := role, content := AnthropicMessageContent.str s } := rfl

theorem noBad_map_pass2 (ids : List String) (msgs : List AnthropicMessage)
    (h : noBad msgs) : noBad (msgs.map (pass2Msg ids)) := by
  intro m' hm' bs hrole hcontent b hb
  rcases List.mem_map.mp hm' with ⟨m, hm, rfl⟩
  obtain ⟨role, content⟩ := m
  cases content with
  | str s =>
    rw [pass2Msg_mk_str] at hcontent
    simp at hcontent
  | blocks bs0 =>
    rw [pass2Msg_mk_blocks] at hrole hcontent
    simp only [AnthropicMessageContent.blocks.injEq] at hcontent
    subst hcontent
    exact h _ hm bs0 hrole rfl b (List.mem_filter.mp hb).1

theorem noBad_filter (p : AnthropicMessage → Bool) (msgs : List AnthropicMessage)
    (h : noBad msgs) : noBad (msgs.filter p) := by
  intro m hm
  exact h m (List.mem_filter.mp hm).1

theorem collectBadIds_of_noBad (msgs : List AnthropicMessage) (h : noBad msgs) :
    collectBadIds msgs = [] := by
  unfold collectBadIds
  rw [List.flatMap_eq_nil_iff]
  intro m hm
  obtain ⟨role, content⟩ := m
  unfold badIdsOfMsg
  by_cases hr : role = "assistant"
  · simp only [hr, if_pos]
    cases content with
    | str s => rfl
    | blocks bs =>
      rw [List.filterMap_eq_nil_iff]
      intro b hb
      have hbad := h _ hm bs hr rfl b hb
      cases b with
      | toolUse id name input =>
        simp only [isBadToolUse, decide_eq_false_iff_not] at hbad
        simp [hbad]
      | text t => rfl
      | image s => rfl
      | toolResult a c e => rfl
      | thinking s t => rfl
      | redactedThinking d => rfl
  · simp [hr]

theorem pass1Msg_eq_self (m : AnthropicMessage)
    (h : ∀ bs, m.role = "assistant" →
      m.content = AnthropicMessageContent.blocks bs →
      ∀ b ∈ bs, isBadToolUse b = false) :
    pass1Msg m = m := by
  obtain ⟨role, content⟩ := m
  by_cases hr : role = "assistant"
  · cases content with
    | str s => exact pass1Msg_mk_str role s
    | blocks bs =>
      rw [pass1Msg_mk_blocks role bs hr]
      have hfilter : bs.filter (fun b => !(isBadToolUse b)) = bs := by
        apply List.filter_eq_self.mpr
        intro b hb
        simp [h bs hr rfl b hb]
      rw [hfilter]
  · exact pass1Msg_not_assistant _ hr

theorem map_pass1_of_noBad (msgs : List AnthropicMessage) (h : noBad msgs) :
    msgs.map pass1Msg = msgs := by
  induction msgs with
  | nil => rfl
  | cons m rest ih =>
    have hm : pass1Msg m = m :=
      pass1Msg_eq_self m (fun bs hr hc b hb =>
        h m (List.mem_cons_self m rest) bs hr hc b hb)
    have hrest := ih (fun m' hm' bs hr hc b hb =>
      h m' (List.mem_cons_of_mem _ hm') bs hr hc b hb)
    simp [hm, hrest]

/-- C5: the tool-history sanitizer is idempotent — applying the
sanitization pass of `preprocess_messages` twice yields the same message
sequence as applying it once, because the first application leaves no
empty-name `tool_use` block in any assistant message. -/
theorem C5_sanitizer_idempotent (msgs : List AnthropicMessage) :
    sanitize_tool_history (sanitize_tool_history msgs) = sanitize_tool_history msgs := by
  have hnb : noBad (sanitize_tool_history msgs) := by
    unfold sanitize_tool_history
    split
    · exact noBad_map_pass1 msgs
    · exact noBad_filter _ _ (noBad_map_pass2 _ _ (noBad_map_pass1 msgs))
  have hstep : ∀ l : List AnthropicMessage, collectBadIds l = [] →
      sanitize_tool_history l = l.map pass1Msg := by
    intro l hl
    unfold sanitize_tool_history
    rw [hl]
    simp
  rw [hstep _ (collectBadIds_of_noBad _ hnb)]
  exact map_pass1_of_noBad _ hnb


theorem optOr_none_right {α : Type} (a : Option α) : optOr a none = a := by
  cases a <;> rfl

theorem lookupKey_append {κ β : Type} [DecidableEq κ] (k : κ) (l m : List (κ × β)) :
    lookupKey k (l ++ m) = optOr (lookupKey k l) (lookupKey k m) := by
  induction l with
  | nil => rfl
  | cons kv rest ih =>
    obtain ⟨k0, v0⟩ := kv
    by_cases h : k0 = k
    · simp [lookupKey, h, optOr]
    · simp [lookupKey, h, ih]

theorem lookupKey_not_mem {κ β : Type} [DecidableEq κ] (k : κ) (l : List (κ × β))
    (h : k ∉ l.map Prod.fst) : lookupKey k l = none := by
  induction l with
  | nil => rfl
  | cons kv rest ih =>
    obtain ⟨k0, v0⟩ := kv
    simp only [List.map_cons, List.mem_cons] at h
    push_neg at h
    have hne : ¬ (k0 = k) := fun he => h.1 he.symm
    simp only [lookupKey, if_neg hne]
    exact ih h.2

theorem lookupKey_replaceKey_ne {κ β : Type} [DecidableEq κ]
    (l : List (κ × β)) (k k' : κ) (v : β) (h : k' ≠ k) :
    lookupKey k' (replaceKey l k v) = lookupKey k' l := by
  induction l with
  | nil => rfl
  | cons kv rest ih =>
    obtain ⟨k0, v0⟩ := kv
    unfold replaceKey
    by_cases h0 : k0 = k
    · rw [if_pos h0]
      subst h0
      have hne : ¬ (k0 = k') := fun he => h he.symm
      simp only [lookupKey, if_neg hne]
    · rw [if_neg h0]
      simp only [lookupKey]
      by_cases h1 : k0 = k'
      · rw [if_pos h1, if_pos h1]
      · rw [if_neg h1, if_neg h1]
        exact ih

theorem lookupKey_replaceKey_self {κ β : Type} [DecidableEq κ]
    (l : List (κ × β)) (k : κ) (v : β) :
    lookupKey k (replaceKey l k v) = (lookupKey k l).map (fun _ => v) := by
  induction l with
  | nil => rfl
  | cons kv rest ih =>
    obtain ⟨k0, v0⟩ := kv
    unfold replaceKey
    by_cases h0 : k0 = k
    · rw [if_pos h0]
      simp [lookupKey, h0]
    · rw [if_neg h0]
      simp only [lookupKey, if_neg h0]
      exact ih

theorem lookup_insertEntry_self {κ β : Type} [DecidableEq κ]
    (l : List (κ × β)) (k : κ) (v : β) :
    lookupKey k (insertEntry l k v) = some v := by
  unfold insertEntry
  by_cases h : (lookupKey k l).isSome
  · rw [if_pos h, lookupKey_replaceKey_self]
    rcases Option.isSome_iff_exists.mp h with ⟨w, hw⟩
    rw [hw]
    rfl
  · rw [if_neg h, lookupKey_append]
    rw [Option.not_isSome_iff_eq_none.mp h]
    simp [lookupKey, optOr]

theorem lookup_insertEntry_ne {κ β : Type} [DecidableEq κ]
    (l : List (κ × β)) (k k' : κ) (v : β) (h : k' ≠ k) :
    lookupKey k' (insertEntry l k v) = lookupKey k' l := by
  unfold insertEntry
  split
  · exact lookupKey_replaceKey_ne l k k' v h
  · have hne : ¬ (k = k') := fun he => h he.symm
    rw [lookupKey_append]
    simp only [lookupKey, if_neg hne]
    exact optOr_none_right _

theorem extendMap_cons {κ β : Type} [DecidableEq κ]
    (m : List (κ × β)) (k0 : κ) (v0 : β) (rest : List (κ × β)) :
    extendMap m ((k0, v0) :: rest) = extendMap (insertEntry m k0 v0) rest := rfl

theorem lookup_extendMap_not_mem {κ β : Type} [DecidableEq κ]
    (m adds : List (κ × β)) (k : κ) (h : k ∉ adds.map Prod.fst) :
    lookupKey k (extendMap m adds) = lookupKey k m := by
  induction adds generalizing m with
  | nil => rfl
  | cons kv rest ih =>
    obtain ⟨k0, v0⟩ := kv
    simp only [List.map_cons, List.mem_cons] at h
    push_neg at h
    rw [extendMap_cons, ih _ h.2, lookup_insertEntry_ne _ _ _ _ h.1]

theorem lookup_extendMap {κ β : Type} [DecidableEq κ]
    (m adds : List (κ × β)) (hnd : (adds.map Prod.fst).Nodup) (k : κ) :
    lookupKey k (extendMap m adds) = optOr (lookupKey k adds) (lookupKey k m) := by
  induction adds generalizing m with
  | nil => rfl
  | cons kv rest ih =>
    obtain ⟨k0, v0⟩ := kv
    simp only [List.map_cons, List.nodup_cons] at hnd
    by_cases hk : k = k0
    · subst hk
      rw [extendMap_cons, lookup_extendMap_not_mem _ _ _ hnd.1,
        lookup_insertEntry_self]
      simp [lookupKey, optOr]
    · have hne : ¬ (k0 = k) := fun he => hk he.symm
      rw [extendMap_cons, ih _ hnd.2, lookup_insertEntry_ne _ _ _ _ hk]
      simp [lookupKey, hne]

theorem deep_merge_json_nil (b : List (String × Json)) : deep_merge_json b [] = b := by
  simp [deep_merge_json]

theorem deep_merge_json_cons (b : List (String × Json)) (k : String) (v : Json)
    (rest : List (String × Json)) :
    deep_merge_json b ((k, v) :: rest) = deep_merge_json (deepMergeEntry b k v) rest := by
  conv_lhs => rw [deep_merge_json]

theorem lookup_deepMergeEntry_ne (b : List (String × Json)) (k : String) (v : Json)
    (kq : String) (h : kq ≠ k) :
    lookupKey kq (deepMergeEntry b k v) = lookupKey kq b := by
  unfold deepMergeEntry
  split
  · exact lookupKey_replaceKey_ne _ _ _ _ h
  · exact lookupKey_replaceKey_ne _ _ _ _ h
  · have hne : ¬ (k = kq) := fun he => h he.symm
    rw [lookupKey_append]
    simp only [lookupKey, if_neg hne]
    exact optOr_none_right _

theorem lookup_deep_merge_not_mem (o b : List (String × Json)) (k : String)
    (h : k ∉ o.map Prod.fst) :
    lookupKey k (deep_merge_json b o) = lookupKey k b := by
  induction o generalizing b with
  | nil => rw [deep_merge_json_nil]
  | cons kv rest ih =>
    obtain ⟨k0, v0⟩ := kv
    simp only [List.map_cons, List.mem_cons] at h
    push_neg at h
    rw [deep_merge_json_cons, ih _ h.2, lookup_deepMergeEntry_ne _ _ _ _ h.1]

theorem lookup_deep_merge_spec (o b : List (String × Json))
    (hnd : (o.map Prod.fst).Nodup) (k : String) :
    lookupKey k (deep_merge_json b o) = deepMergeSpecLookup b o k := by
  induction o generalizing b with
  | nil =>
    rw [deep_merge_json_nil]
    simp [deepMergeSpecLookup, lookupKey]
  | cons kv rest ih =>
    obtain ⟨k0, v0⟩ := kv
    simp only [List.map_cons, List.nodup_cons] at hnd
    rw [deep_merge_json_cons]
    by_cases hk : k = k0
    · subst hk
      rw [lookup_deep_merge_not_mem _ _ _ hnd.1]
      unfold deepMergeSpecLookup
      simp only [lookupKey, if_pos rfl]
      unfold deepMergeEntry
      cases hlb : lookupKey k b with
      | none =>
        rw [lookupKey_append]
        rw [hlb]
        cases v0 <;> simp [lookupKey, optOr]
      | some w =>
        cases w <;> cases v0 <;>
          simp [lookupKey_replaceKey_self, hlb]
    · have hne : ¬ (k0 = k) := fun he => hk he.symm
      rw [ih _ hnd.2]
      unfold deepMergeSpecLookup
      simp only [lookupKey, if_neg hne]
      rw [lookup_deepMergeEntry_ne _ _ _ _ hk]

/-- C7: merging a child model config onto its parent follows the spec:
every scalar option field takes the child's value when set and the
parent's otherwise, `aliases` is the ordered concatenation parent ++
child, `headers` is the map union with the child winning on conflicting
keys, and `extra_body` is the recursive JSON deep-merge in which two
objects merge key-wise and every non-object child value replaces the
parent's binding.  (`extends` is consumed by the resolution walk, which
always calls the merge with the child's `extends` set.) -/
theorem C7_merge_models_follows_spec (parent child : ModelConfig)
    (pa ca : ApiParams)
    (hp : parent.api_params = some pa) (hc : child.api_params = some ca)
    (hhdr : (ca.headers.map Prod.fst).Nodup) :
    (merge_models parent child).provider = optOr child.provider parent.provider ∧
    (merge_models parent child).api_model_id =
      optOr child.api_model_id parent.api_model_id ∧
    (merge_models parent child).min_reasoning =
      optOr child.min_reasoning parent.min_reasoning ∧
    (merge_models parent child).force_reasoning =
      optOr child.force_reasoning parent.force_reasoning ∧
    (merge_models parent child).max_tokens = optOr child.max_tokens parent.max_tokens ∧
    (merge_models parent child).override_max_tokens =
      optOr child.override_max_tokens parent.override_max_tokens ∧
    (merge_models parent child).aliases = parent.aliases ++ child.aliases ∧
    (∃ ma, (merge_models parent child).api_params = some ma ∧
      (∀ k, lookupKey k ma.headers =
        optOr (lookupKey k ca.headers) (lookupKey k pa.headers)) ∧
      ma.extra_body = deep_merge_json pa.extra_body ca.extra_body) ∧
    (∀ b o, (o.map Prod.fst).Nodup → ∀ k,
      lookupKey k (deep_merge_json b o) = deepMergeSpecLookup b o k) := by
  refine ⟨rfl, rfl, rfl, rfl, rfl, rfl, rfl, ?_, fun b o hnd k => lookup_deep_merge_spec o b hnd k⟩
  refine ⟨{ timeout := optOr ca.timeout pa.timeout
            headers := extendMap pa.headers ca.headers
            extra_body := deep_merge_json pa.extra_body ca.extra_body
            retry := optOr ca.retry pa.retry }, ?_, ?_, rfl⟩
  · show merge_api_params parent.api_params child.api_params = _
    rw [hp, hc]
    rfl
  · intro k
    exact lookup_extendMap pa.headers ca.headers hhdr k

/-- Witness for `C7_merge_models_follows_spec` on a concrete parent and
child configuration with overlapping headers and nested `extra_body`
objects. -/
theorem C7_merge_models_witness :
    (merge_models
        { extendsKey := none, provider := some "openrouter",
          api_model_id := some "base/model", aliases := ["base"],
          context := none, capabilities := none, min_reasoning := none,
          force_reasoning := none, max_tokens := some 1000,
          override_max_tokens := none, override_map := none, preprocess := none,
          api_params := some
            { timeout := some 30,
              headers := [("x-a", "1"), ("x-b", "2")],
              extra_body := [("provider", Json.obj [("order", Json.arr [Json.str "p1"])])],
              retry := none } }
        { extendsKey := some "parent", provider := none,
          api_model_id := some "child/model", aliases := ["child"],
          context := none, capabilities := none, min_reasoning := none,
          force_reasoning := none, max_tokens := none,
          override_max_tokens := none, override_map := none, preprocess := none,
          api_params := some
            { timeout := none,
              headers := [("x-b", "3"), ("x-c", "4")],
              extra_body := [("provider", Json.obj [("allow", Json.bool true)])],
              retry := none } }).aliases = ["base"] ++ ["child"] ∧
    (merge_models
        { extendsKey := none, provider := some "openrouter",
          api_model_id := some "base/model", aliases := ["base"],
          context := none, capabilities := none, min_reasoning := none,
          force_reasoning := none, max_tokens := some 1000,
          override_max_tokens := none, override_map := none, preprocess := none,
          api_params := some
            { timeout := some 30,
              headers := [("x-a", "1"), ("x-b", "2")],
              extra_body := [("provider", Json.obj [("order", Json.arr [Json.str "p1"])])],
              retry := none } }
        { extendsKey := some "parent", provider := none,
          api_model_id := some "child/model", aliases := ["child"],
          context := none, capabilities := none, min_reasoning := none,
          force_reasoning := none, max_tokens := none,
          override_max_tokens := none, override_map := none, preprocess := none,
          api_params := some
            { timeout := none,
              headers := [("x-b", "3"), ("x-c", "4")],
              extra_body := [("provider", Json.obj [("allow", Json.bool true)])],
              retry := none } }).provider = optOr none (some "openrouter") := by
  have h := C7_merge_models_follows_spec
    { extendsKey := none, provider := some "openrouter",
      api_model_id := some "base/model", aliases := ["base"],
      context := none, capabilities := none, min_reasoning := none,
      force_reasoning := none, max_tokens := some 1000,
      override_max_tokens := none, override_map := none, preprocess := none,
      api_params := some
        { timeout := some 30,
          headers := [("x-a", "1"), ("x-b", "2")],
          extra_body := [("provider", Json.obj [("order", Json.arr [Json.str "p1"])])],
          retry := none } }
    { extendsKey := some "parent", provider := none,
      api_model_id := some "child/model", aliases := ["child"],
      context := none, capabilities := none, min_reasoning := none,
      force_reasoning := none, max_tokens := none,
      override_max_tokens := none, override_map := none, preprocess := none,
      api_params := some
        { timeout := none,
          headers := [("x-b", "3"), ("x-c", "4")],
          extra_body := [("provider", Json.obj [("allow", Json.bool true)])],
          retry := none } }
    { timeout := some 30, headers := [("x-a", "1"), ("x-b", "2")],
      extra_body := [("provider", Json.obj [("order", Json.arr [Json.str "p1"])])],
      retry := none }
    { timeout := none, headers := [("x-b", "3"), ("x-c", "4")],
      extra_body := [("provider", Json.obj [("allow", Json.bool true)])],
      retry := none }
    rfl rfl (by decide)
  exact ⟨h.2.2.2.2.2.2.1, h.1⟩

theorem scanEvents_append (s : ScanState) (a b : List AnthropicStreamEvent) :
    scanEvents s (a ++ b) =
      (scanEvents s a).bind (fun s2 => scanEvents s2 b) := by
  induction a generalizing s with
  | nil => rfl
  | cons e rest ih =>
    simp only [List.cons_append, scanEvents]
    cases scanStep s e with
    | none => rfl
    | some s2 => exact ih s2

theorem ensure_scan (st : StreamState) (t : BlockType) (blk : AnthropicContentBlock)
    (hInv : StInv st) :
    StInv (ensureBlockType st t blk).1 ∧
    (ensureBlockType st t blk).1.active_block_type = some t ∧
    scanEvents (stScan st) (ensureBlockType st t blk).2 =
      some (stScan (ensureBlockType st t blk).1) := by
  unfold ensureBlockType
  by_cases h : st.active_block_type = some t
  · simp only [if_pos h]
    exact ⟨hInv, h, rfl⟩
  · simp only [if_neg h]
    cases hab : st.active_block_type with
    | none =>
      unfold StInv at hInv
      rw [hab] at hInv
      simp only [hab, Option.isSome_none, Bool.false_eq_true, if_false, hInv]
      refine ⟨?_, trivial, ?_⟩
      · unfold StInv
        rfl
      · unfold stScan
        simp only [hab]
        simp [scanEvents, scanStep]
    | some t0 =>
      unfold StInv at hInv
      rw [hab] at hInv
      simp only [hab, Option.isSome_some, if_true, hInv]
      refine ⟨?_, trivial, ?_⟩
      · unfold StInv
        rfl
      · unfold stScan
        simp only [hab]
        simp [scanEvents, scanStep]

theorem ensure_delta_scan (st : StreamState) (t : BlockType)
    (blk : AnthropicContentBlock) (d : AnthropicDelta) (hInv : StInv st) :
    StInv (ensureBlockType st t blk).1 ∧
    scanEvents (stScan st)
      ((ensureBlockType st t blk).2 ++
        [AnthropicStreamEvent.contentBlockDelta
          (ensureBlockType st t blk).1.block_index d]) =
      some (stScan (ensureBlockType st t blk).1) := by
  obtain ⟨h1, h2, h3⟩ := ensure_scan st t blk hInv
  refine ⟨h1, ?_⟩
  rw [scanEvents_append, h3]
  have hsc : stScan (ensureBlockType st t blk).1 =
      { nextIndex := (ensureBlockType st t blk).1.block_index,
        openAt := some (ensureBlockType st t blk).1.block_index } := by
    unfold stScan
    rw [h2]
  rw [hsc]
  simp [scanEvents, scanStep]

theorem reasoningPhase_scan (st : StreamState) (delta : OpenAIDelta)
    (hInv : StInv st) :
    StInv (reasoningPhase st delta).1 ∧
    scanEvents (stScan st) (reasoningPhase st delta).2 =
      some (stScan (reasoningPhase st delta).1) := by
  unfold reasoningPhase
  cases hre : optOr delta.reasoning delta.reasoning_content with
  | none => exact ⟨hInv, rfl⟩
  | some r =>
    by_cases hr : r ≠ ""
    · simp only [if_pos hr]
      rcases hens : ensureBlockType st BlockType.thinking
        (AnthropicContentBlock.thinking "signature" "") with ⟨s, e⟩
      have h := ensure_delta_scan st BlockType.thinking
        (AnthropicContentBlock.thinking "signature" "")
        (AnthropicDelta.thinkingDelta r) hInv
      rw [hens] at h
      exact h
    · simp only [if_neg hr]
      exact ⟨hInv, rfl⟩

theorem contentPhase_scan (st : StreamState) (delta : OpenAIDelta)
    (hInv : StInv st) :
    StInv (contentPhase st delta).1 ∧
    scanEvents (stScan st) (contentPhase st delta).2 =
      some (stScan (contentPhase st delta).1) := by
  unfold contentPhase
  cases hco : delta.content with
  | none => exact ⟨hInv, rfl⟩
  | some c =>
    by_cases hc : c ≠ ""
    · simp only [if_pos hc]
      rcases hens : ensureBlockType st BlockType.text
        (AnthropicContentBlock.text "") with ⟨s, e⟩
      have h := ensure_delta_scan st BlockType.text
        (AnthropicContentBlock.text "") (AnthropicDelta.textDelta c) hInv
      rw [hens] at h
      exact h
    · simp only [if_neg hc]
      exact ⟨hInv, rfl⟩

theorem finishPhase_some_scan (st : StreamState) (f : String) (hInv : StInv st) :
    scanEvents (stScan st) (finishPhase st (some f)).2 =
      some { nextIndex := (if st.active_block_type.isSome then st.block_index + 1
                           else st.block_index),
             openAt := none } := by
  unfold finishPhase
  cases hab : st.active_block_type with
  | none =>
    unfold StInv at hInv
    rw [hab] at hInv
    unfold stScan
    simp only [hab, hInv]
    simp [scanEvents, scanStep]
  | some t0 =>
    unfold StInv at hInv
    rw [hab] at hInv
    unfold stScan
    simp only [hab, hInv]
    simp [scanEvents, scanStep]

theorem toolsPhase_none (st : StreamState) (delta : OpenAIDelta)
    (htc : delta.tool_calls = none) : toolsPhase st delta = (st, []) := by
  unfold toolsPhase
  rw [htc]

theorem finishPhase_none (st : StreamState) : finishPhase st none = (st, []) := rfl

theorem processChoice_scan (st : StreamState) (choice : OpenAIChunkChoice)
    (hInv : StInv st) (htc : choice.delta.tool_calls = none)
    (hfr : choice.finish_reason = none) :
    StInv (processChoice st choice).1 ∧
    scanEvents (stScan st) (processChoice st choice).2 =
      some (stScan (processChoice st choice).1) := by
  unfold processChoice
  rcases h1 : reasoningPhase st choice.delta with ⟨st1, evs1⟩
  dsimp only
  rcases h2 : contentPhase st1 choice.delta with ⟨st2, evs2⟩
  dsimp only
  rw [toolsPhase_none st2 choice.delta htc]
  dsimp only
  rw [hfr, finishPhase_none]
  dsimp only
  have hr := reasoningPhase_scan st choice.delta hInv
  rw [h1] at hr
  have hcnt := contentPhase_scan st1 choice.delta hr.1
  rw [h2] at hcnt
  refine ⟨hcnt.1, ?_⟩
  simp only [List.append_nil]
  rw [scanEvents_append, hr.2]
  exact hcnt.2

theorem processChoice_final_scan (st : StreamState) (choice : OpenAIChunkChoice)
    (f : String) (hInv : StInv st) (htc : choice.delta.tool_calls = none)
    (hfr : choice.finish_reason = some f) :
    ∃ k, scanEvents (stScan st) (processChoice st choice).2 =
      some { nextIndex := k, openAt := none } := by
  unfold processChoice
  rcases h1 : reasoningPhase st choice.delta with ⟨st1, evs1⟩
  dsimp only
  rcases h2 : contentPhase st1 choice.delta with ⟨st2, evs2⟩
  dsimp only
  rw [toolsPhase_none st2 choice.delta htc]
  dsimp only
  rw [hfr]
  have hr := reasoningPhase_scan st choice.delta hInv
  rw [h1] at hr
  have hcnt := contentPhase_scan st1 choice.delta hr.1
  rw [h2] at hcnt
  have hfin := finishPhase_some_scan st2 f hcnt.1
  refine ⟨if st2.active_block_type.isSome then st2.block_index + 1
          else st2.block_index, ?_⟩
  rcases h4 : finishPhase st2 (some f) with ⟨st4, evs4⟩
  rw [h4] at hfin
  dsimp only at hfin hr hcnt ⊢
  simp only [List.append_nil, List.append_assoc]
  rw [scanEvents_append, hr.2]
  simp only [Option.some_bind]
  rw [scanEvents_append, hcnt.2]
  simp only [Option.some_bind]
  simpa using hfin

theorem usage_events_scan (s : ScanState) (u : Option OpenAIUsage) :
    scanEvents s
      (match u with
       | some u =>
         [AnthropicStreamEvent.messageDelta
           { stop_reason := none, stop_sequence := none }
           { input_tokens := u.prompt_tokens, output_tokens := u.completion_tokens }]
       | none => []) = some s := by
  cases u <;> simp [scanEvents, scanStep]

theorem processChunkBody_scan (st : StreamState) (chunk : OpenAIChatCompletionChunk)
    (hInv : StInv st) (hint : intermediateChunk chunk = true) :
    StInv (processChunkBody st chunk).1 ∧
    scanEvents (stScan st) (processChunkBody st chunk).2 =
      some (stScan (processChunkBody st chunk).1) := by
  unfold processChunkBody
  unfold intermediateChunk at hint
  cases hh : chunk.choices.head? with
  | none =>
    dsimp only
    refine ⟨hInv, ?_⟩
    exact usage_events_scan _ _
  | some ch =>
    rw [hh] at hint
    simp only [Bool.and_eq_true, Option.isNone_iff_eq_none] at hint
    dsimp only
    rcases hpc : processChoice st ch with ⟨st1, evs1⟩
    dsimp only
    have h := processChoice_scan st ch hInv hint.1 hint.2
    rw [hpc] at h
    dsimp only at h
    refine ⟨h.1, ?_⟩
    rw [scanEvents_append, h.2]
    simp only [Option.some_bind]
    exact usage_events_scan _ _

theorem processChunkBody_final_scan (st : StreamState)
    (chunk : OpenAIChatCompletionChunk) (hInv : StInv st)
    (hfin : finalChunk chunk = true) :
    ∃ k, scanEvents (stScan st) (processChunkBody st chunk).2 =
      some { nextIndex := k, openAt := none } := by
  unfold processChunkBody
  unfold finalChunk at hfin
  cases hh : chunk.choices.head? with
  | none => rw [hh] at hfin; simp at hfin
  | some ch =>
    rw [hh] at hfin
    simp only [Bool.and_eq_true, Option.isNone_iff_eq_none,
      Option.isSome_iff_exists] at hfin
    rcases hfin.2 with ⟨f, hf⟩
    dsimp only
    rcases hpc : processChoice st ch with ⟨st1, evs1⟩
    dsimp only
    have h := processChoice_final_scan st ch f hInv hfin.1 hf
    rw [hpc] at h
    dsimp only at h
    rcases h with ⟨k, hk⟩
    refine ⟨k, ?_⟩
    rw [scanEvents_append, hk]
    simp only [Option.some_bind]
    exact usage_events_scan _ _

theorem convertGo_nil (st : StreamState) (first : Bool) :
    convertStreamGo st first [] = [AnthropicStreamEvent.messageStop] := rfl

theorem convertGo_err (st : StreamState) (first : Bool) (e : String)
    (items : List (Except String OpenAIChatCompletionChunk)) :
    convertStreamGo st first (Except.error e :: items) =
      AnthropicStreamEvent.errorEvent (Json.obj [("message", Json.str e)]) ::
        convertStreamGo st first items := rfl

theorem convertGo_ok_cons (st : StreamState) (c : OpenAIChatCompletionChunk)
    (items : List (Except String OpenAIChatCompletionChunk)) :
    convertStreamGo st false (Except.ok c :: items) =
      (processChunkBody st c).2 ++
        convertStreamGo (processChunkBody st c).1 false items := by
  rcases h : processChunkBody st c with ⟨st1, evs⟩
  simp [convertStreamGo, h]

theorem convertGo_ok_first (st : StreamState) (c : OpenAIChatCompletionChunk)
    (items : List (Except String OpenAIChatCompletionChunk)) :
    convertStreamGo st true (Except.ok c :: items) =
      AnthropicStreamEvent.messageStart (mkStartMessage (initOnFirstChunk st c)) ::
        AnthropicStreamEvent.ping ::
          ((processChunkBody (initOnFirstChunk st c) c).2 ++
            convertStreamGo (processChunkBody (initOnFirstChunk st c) c).1 false items) := by
  rcases h : processChunkBody (initOnFirstChunk st c) c with ⟨st1, evs⟩
  simp [convertStreamGo, h]

theorem stScan_init (st : StreamState) (c : OpenAIChatCompletionChunk) :
    stScan (initOnFirstChunk st c) = stScan st := rfl

theorem StInv_init (st : StreamState) (c : OpenAIChatCompletionChunk)
    (h : StInv st) : StInv (initOnFirstChunk st c) := h

theorem scanEvents_start_ping (s : ScanState) (m : AnthropicMessageResponse)
    (rest : List AnthropicStreamEvent) :
    scanEvents s (AnthropicStreamEvent.messageStart m ::
      AnthropicStreamEvent.ping :: rest) = scanEvents s rest := rfl

theorem convertGo_scan_body (last : OpenAIChatCompletionChunk)
    (hlast : finalChunk last = true) (body : List OpenAIChatCompletionChunk) :
    ∀ st : StreamState, StInv st →
      (∀ c ∈ body, intermediateChunk c = true) →
      ∃ k, scanEvents (stScan st)
        (convertStreamGo st false ((body ++ [last]).map Except.ok)) =
          some { nextIndex := k, openAt := none } := by
  induction body with
  | nil =>
    intro st hInv _
    simp only [List.nil_append, List.map_cons, List.map_nil]
    rw [convertGo_ok_cons, scanEvents_append]
    obtain ⟨k, hk⟩ := processChunkBody_final_scan st last hInv hlast
    rw [hk]
    refine ⟨k, ?_⟩
    simp [convertGo_nil, scanEvents, scanStep]
  | cons c rest ih =>
    intro st hInv hbody
    simp only [List.cons_append, List.map_cons]
    rw [convertGo_ok_cons, scanEvents_append]
    have h := processChunkBody_scan st c hInv (hbody c (List.mem_cons_self c rest))
    rw [h.2]
    simp only [Option.some_bind]
    exact ih (processChunkBody st c).1 h.1
      (fun cq hcq => hbody cq (List.mem_cons_of_mem _ hcq))

theorem convertGo_ne_nil (items : List (Except String OpenAIChatCompletionChunk)) :
    ∀ (st : StreamState) (first : Bool), convertStreamGo st first items ≠ [] := by
  induction items with
  | nil =>
    intro st first
    rw [convertGo_nil]
    simp
  | cons it rest ih =>
    intro st first
    cases it with
    | error e =>
      rw [convertGo_err]
      simp
    | ok c =>
      cases first with
      | true =>
        rw [convertGo_ok_first]
        simp
      | false =>
        rw [convertGo_ok_cons]
        intro h
        rcases List.append_eq_nil.mp h with ⟨_, h2⟩
        exact ih _ false h2

theorem getLast_cons_ne {α : Type} (a : α) (l : List α) (h : l ≠ []) :
    (a :: l).getLast? = l.getLast? := by
  cases l with
  | nil => exact absurd rfl h
  | cons b m => exact List.getLast?_cons_cons

theorem getLast_append_right {α : Type} (l1 l2 : List α) (h : l2 ≠ []) :
    (l1 ++ l2).getLast? = l2.getLast? := by
  induction l1 with
  | nil => rfl
  | cons a rest ih =>
    rw [List.cons_append, getLast_cons_ne, ih]
    intro hx
    rcases List.append_eq_nil.mp hx with ⟨_, h2⟩
    exact h h2

theorem convertGo_ends_stop (items : List (Except String OpenAIChatCompletionChunk)) :
    ∀ (st : StreamState) (first : Bool),
      (convertStreamGo st first items).getLast? =
        some AnthropicStreamEvent.messageStop := by
  induction items with
  | nil => intro st first; rfl
  | cons it rest ih =>
    intro st first
    cases it with
    | error e =>
      rw [convertGo_err, getLast_cons_ne _ _ (convertGo_ne_nil rest st first)]
      exact ih st first
    | ok c =>
      cases first with
      | true =>
        rw [convertGo_ok_first]
        have hne : (processChunkBody (initOnFirstChunk st c) c).2 ++
            convertStreamGo (processChunkBody (initOnFirstChunk st c) c).1 false rest ≠ [] := by
          intro hx
          rcases List.append_eq_nil.mp hx with ⟨_, h2⟩
          exact convertGo_ne_nil rest _ false h2
        rw [getLast_cons_ne, getLast_cons_ne _ _ hne,
          getLast_append_right _ _ (convertGo_ne_nil rest _ false)]
        · exact ih _ false
        · simp only [ne_eq, List.cons_ne_nil, not_false_eq_true]
      | false =>
        rw [convertGo_ok_cons,
          getLast_append_right _ _ (convertGo_ne_nil rest _ false)]
        exact ih _ false

/-- C2 amended: for every upstream chunk sequence with at least one chunk
and no error item, in which no chunk carries tool calls, no chunk except
the final one carries a finish reason, and the final chunk's first
choice does carry one, the translated event stream begins with
`message_start` followed by `ping`, its content-block events are
well-bracketed with start indices 0, 1, 2, ... and matching stops, and it
ends with `message_stop`. -/
theorem C2_stream_invariants (freshId : String)
    (body : List OpenAIChatCompletionChunk) (last : OpenAIChatCompletionChunk)
    (hbody : ∀ c ∈ body, intermediateChunk c = true)
    (hlast : finalChunk last = true) :
    beginsWithStartPing (convert_stream freshId ((body ++ [last]).map Except.ok)) = true ∧
    blocksWellFormed (convert_stream freshId ((body ++ [last]).map Except.ok)) = true ∧
    endsWithMessageStop (convert_stream freshId ((body ++ [last]).map Except.ok)) = true := by
  refine ⟨?_, ?_, ?_⟩
  · cases body with
    | nil =>
      simp only [List.nil_append, List.map_cons, List.map_nil]
      unfold convert_stream
      rw [convertGo_ok_first]
      rfl
    | cons c rest =>
      simp only [List.cons_append, List.map_cons]
      unfold convert_stream
      rw [convertGo_ok_first]
      rfl
  · unfold convert_stream blocksWellFormed
    cases body with
    | nil =>
      simp only [List.nil_append, List.map_cons, List.map_nil]
      rw [convertGo_ok_first, scanEvents_start_ping]
      have hInv0 : StInv (initOnFirstChunk
          { block_index := 0, active_block_type := none, open_block_indices := [],
            tool_index_map := [], msg_id := "msg_" ++ freshId, model := "" } last) := by
        exact StInv_init _ _ (by unfold StInv; rfl)
      obtain ⟨k, hk⟩ := processChunkBody_final_scan _ last hInv0 hlast
      rw [scanEvents_append]
      have hscan0 : stScan (initOnFirstChunk
          { block_index := 0, active_block_type := none, open_block_indices := [],
            tool_index_map := [], msg_id := "msg_" ++ freshId, model := "" } last) =
          { nextIndex := 0, openAt := none } := rfl
      rw [← hscan0, hk]
      simp [convertGo_nil, scanEvents, scanStep]
    | cons c rest =>
      simp only [List.cons_append, List.map_cons]
      rw [convertGo_ok_first, scanEvents_start_ping]
      have hInv0 : StInv (initOnFirstChunk
          { block_index := 0, active_block_type := none, open_block_indices := [],
            tool_index_map := [], msg_id := "msg_" ++ freshId, model := "" } c) :=
        StInv_init _ _ (by unfold StInv; rfl)
      have hch := processChunkBody_scan _ c hInv0 (hbody c (List.mem_cons_self c rest))
      obtain ⟨k, hk⟩ := convertGo_scan_body last hlast rest
        (processChunkBody (initOnFirstChunk
          { block_index := 0, active_block_type := none, open_block_indices := [],
            tool_index_map := [], msg_id := "msg_" ++ freshId, model := "" } c) c).1
        hch.1 (fun cq hcq => hbody cq (List.mem_cons_of_mem _ hcq))
      rw [scanEvents_append]
      have hscan0 : stScan (initOnFirstChunk
          { block_index := 0, active_block_type := none, open_block_indices := [],
            tool_index_map := [], msg_id := "msg_" ++ freshId, model := "" } c) =
          { nextIndex := 0, openAt := none } := rfl
      rw [← hscan0, hch.2]
      simp only [Option.some_bind]
      rw [hk]
      rfl
  · unfold convert_stream endsWithMessageStop
    rw [convertGo_ends_stop]

/-- Witness for `C2_stream_invariants`: a text chunk followed by a text
chunk carrying `finish_reason = "stop"`. -/
theorem C2_stream_invariants_witness :
    beginsWithStartPing
      (convert_stream "w" (([c2Chunk] ++ [c2FinalChunk]).map Except.ok)) = true ∧
    blocksWellFormed
      (convert_stream "w" (([c2Chunk] ++ [c2FinalChunk]).map Except.ok)) = true ∧
    endsWithMessageStop
      (convert_stream "w" (([c2Chunk] ++ [c2FinalChunk]).map Except.ok)) = true :=
  C2_stream_invariants "w" [c2Chunk] c2FinalChunk
    (by intro c hc; simp only [List.mem_singleton] at hc; subst hc; rfl)
    rfl

theorem ensure_no_error (st : StreamState) (t : BlockType)
    (blk : AnthropicContentBlock) :
    ∀ e ∈ (ensureBlockType st t blk).2, isErrorEvent e = false := by
  unfold ensureBlockType
  by_cases h : st.active_block_type = some t
  · simp [if_pos h]
  · simp only [if_neg h]
    intro e he
    rcases List.mem_append.mp he with hm | hm
    · rcases List.mem_map.mp hm with ⟨i, _, rfl⟩
      rfl
    · simp only [List.mem_singleton] at hm
      subst hm
      rfl

theorem oneToolCall_no_error (st : StreamState) (tc : OpenAIChunkToolCall) :
    ∀ e ∈ (processOneToolCall st tc).2, isErrorEvent e = false := by
  unfold processOneToolCall
  cases tc.id with
  | none =>
    cases htc : tc.function.bind (fun f => f.arguments) with
    | none => simp
    | some args =>
      cases hlk : lookupKey tc.index st.tool_index_map with
      | none => simp [htc, hlk]
      | some aidx =>
        simp only [htc, hlk]
        intro e he
        simp only [List.nil_append, List.mem_singleton] at he
        subst he
        rfl
  | some tid =>
    intro e he
    dsimp only at he
    rcases List.mem_append.mp he with hm | hm
    · simp only [List.mem_singleton] at hm
      subst hm
      rfl
    · rcases htc : tc.function.bind (fun f => f.arguments) with _ | args
      · rw [htc] at hm
        simp at hm
      · rw [htc] at hm
        rcases hlk : lookupKey tc.index
            (insertEntry st.tool_index_map tc.index st.block_index) with _ | aidx
        · rw [hlk] at hm
          simp at hm
        · rw [hlk] at hm
          simp only [List.mem_singleton] at hm
          subst hm
          rfl

theorem toolCalls_no_error (st : StreamState) (tcs : List OpenAIChunkToolCall) :
    ∀ e ∈ (processToolCalls st tcs).2, isErrorEvent e = false := by
  unfold processToolCalls
  intro e he
  dsimp only at he
  rcases List.mem_append.mp he with hm | hm
  · by_cases h1 : st.active_block_type = some BlockType.toolUse
    · simp [if_pos h1] at hm
    · simp only [if_neg h1] at hm
      by_cases h2 : st.active_block_type.isSome
      · simp only [if_pos h2] at hm
        rcases List.mem_map.mp hm with ⟨i, _, rfl⟩
        rfl
      · simp [if_neg h2] at hm
  · revert hm
    have hgen : ∀ (l : List OpenAIChunkToolCall) (acc : StreamState × List AnthropicStreamEvent),
        (∀ e2 ∈ acc.2, isErrorEvent e2 = false) →
        ∀ e2 ∈ (l.foldl (fun (a : StreamState × List AnthropicStreamEvent) tc =>
            let (s2, e3) := processOneToolCall a.1 tc
            (s2, a.2 ++ e3)) acc).2, isErrorEvent e2 = false := by
      intro l
      induction l with
      | nil => intro acc hacc e2 he2; exact hacc e2 he2
      | cons tc rest ih =>
        intro acc hacc e2 he2
        refine ih _ ?_ e2 he2
        rcases hp : processOneToolCall acc.1 tc with ⟨s2, e3⟩
        dsimp only
        intro e4 he4
        rcases List.mem_append.mp he4 with hx | hx
        · exact hacc e4 hx
        · exact oneToolCall_no_error acc.1 tc e4 hx
    intro hm
    exact hgen tcs _ (by simp) e hm

theorem reasoningPhase_no_error (st : StreamState) (delta : OpenAIDelta) :
    ∀ e ∈ (reasoningPhase st delta).2, isErrorEvent e = false := by
  unfold reasoningPhase
  cases optOr delta.reasoning delta.reasoning_content with
  | none => simp
  | some r =>
    by_cases hr : r ≠ ""
    · simp only [if_pos hr]
      rcases hens : ensureBlockType st BlockType.thinking
        (AnthropicContentBlock.thinking "signature" "") with ⟨s2, e2⟩
      dsimp only
      intro e he
      rcases List.mem_append.mp he with hm | hm
      · have := ensure_no_error st BlockType.thinking
          (AnthropicContentBlock.thinking "signature" "")
        rw [hens] at this
        exact this e hm
      · simp only [List.mem_singleton] at hm
        subst hm
        rfl
    · simp [if_neg hr]

theorem contentPhase_no_error (st : StreamState) (delta : OpenAIDelta) :
    ∀ e ∈ (contentPhase st delta).2, isErrorEvent e = false := by
  unfold contentPhase
  cases delta.content with
  | none => simp
  | some c =>
    by_cases hc : c ≠ ""
    · simp only [if_pos hc]
      rcases hens : ensureBlockType st BlockType.text
        (AnthropicContentBlock.text "") with ⟨s2, e2⟩
      dsimp only
      intro e he
      rcases List.mem_append.mp he with hm | hm
      · have := ensure_no_error st BlockType.text (AnthropicContentBlock.text "")
        rw [hens] at this
        exact this e hm
      · simp only [List.mem_singleton] at hm
        subst hm
        rfl
    · simp [if_neg hc]

theorem toolsPhase_no_error (st : StreamState) (delta : OpenAIDelta) :
    ∀ e ∈ (toolsPhase st delta).2, isErrorEvent e = false := by
  unfold toolsPhase
  cases delta.tool_calls with
  | none => simp
  | some tcs => exact toolCalls_no_error st tcs

theorem finishPhase_no_error (st : StreamState) (fr : Option String) :
    ∀ e ∈ (finishPhase st fr).2, isErrorEvent e = false := by
  unfold finishPhase
  cases fr with
  | none => simp
  | some f =>
    intro e he
    dsimp only at he
    rcases List.mem_append.mp he with hm | hm
    · rcases List.mem_map.mp hm with ⟨i, _, rfl⟩
      rfl
    · simp only [List.mem_singleton] at hm
      subst hm
      rfl

theorem processChoice_no_error (st : StreamState) (choice : OpenAIChunkChoice) :
    ∀ e ∈ (processChoice st choice).2, isErrorEvent e = false := by
  unfold processChoice
  rcases h1 : reasoningPhase st choice.delta with ⟨st1, evs1⟩
  dsimp only
  rcases h2 : contentPhase st1 choice.delta with ⟨st2, evs2⟩
  dsimp only
  rcases h3 : toolsPhase st2 choice.delta with ⟨st3, evs3⟩
  dsimp only
  rcases h4 : finishPhase st3 choice.finish_reason with ⟨st4, evs4⟩
  dsimp only
  intro e he
  have hr := reasoningPhase_no_error st choice.delta
  have hcn := contentPhase_no_error st1 choice.delta
  have ht := toolsPhase_no_error st2 choice.delta
  have hf := finishPhase_no_error st3 choice.finish_reason
  rw [h1] at hr
  rw [h2] at hcn
  rw [h3] at ht
  rw [h4] at hf
  rcases List.mem_append.mp he with hm | hm4
  · rcases List.mem_append.mp hm with hm2 | hm3
    · rcases List.mem_append.mp hm2 with hma | hmb
      · exact hr e hma
      · exact hcn e hmb
    · exact ht e hm3
  · exact hf e hm4

theorem processChunkBody_no_error (st : StreamState)
    (chunk : OpenAIChatCompletionChunk) :
    ∀ e ∈ (processChunkBody st chunk).2, isErrorEvent e = false := by
  unfold processChunkBody
  cases hh : chunk.choices.head? with
  | none =>
    dsimp only
    intro e he
    simp only [List.nil_append] at he
    cases hu : chunk.usage with
    | none =>
      rw [hu] at he
      simp at he
    | some u =>
      rw [hu] at he
      simp only [List.mem_singleton] at he
      subst he
      rfl
  | some ch =>
    dsimp only
    rcases hpc : processChoice st ch with ⟨st1, evs1⟩
    dsimp only
    intro e he
    rcases List.mem_append.mp he with hm | hm
    · have := processChoice_no_error st ch
      rw [hpc] at this
      exact this e hm
    · cases hu : chunk.usage with
      | none =>
        rw [hu] at hm
        simp at hm
      | some u =>
        rw [hu] at hm
        simp only [List.mem_singleton] at hm
        subst hm
        rfl

theorem convertGo_error_count (items : List (Except String OpenAIChatCompletionChunk)) :
    ∀ (st : StreamState) (first : Bool),
      (convertStreamGo st first items).countP isErrorEvent =
        items.countP isErrItem := by
  induction items with
  | nil => intro st first; rfl
  | cons it rest ih =>
    intro st first
    cases it with
    | error e =>
      rw [convertGo_err]
      simp only [List.countP_cons]
      rw [ih st first]
      rfl
    | ok c =>
      have hzero : ∀ st2 : StreamState,
          ((processChunkBody st2 c).2).countP isErrorEvent = 0 := by
        intro st2
        rw [List.countP_eq_zero]
        intro e he
        simp [processChunkBody_no_error st2 c e he]
      cases first with
      | true =>
        rw [convertGo_ok_first]
        simp only [List.countP_cons, List.countP_append, hzero, ih]
        simp [isErrorEvent, isErrItem]
      | false =>
        rw [convertGo_ok_cons]
        simp only [List.countP_append, hzero, ih]
        simp [isErrItem]

/-- C3 amended: the stream translator maps each upstream error item to
exactly one `error` event, keeps processing subsequent items, and the
output always ends with `message_stop` (even after errors). -/
theorem C3_error_event_per_error_item (freshId : String)
    (items : List (Except String OpenAIChatCompletionChunk)) :
    (convert_stream freshId items).countP isErrorEvent =
      items.countP isErrItem ∧
    endsWithMessageStop (convert_stream freshId items) = true := by
  constructor
  · exact convertGo_error_count items _ true
  · unfold convert_stream endsWithMessageStop
    rw [convertGo_ends_stop]

end AntRouter
